import Mathlib

/-!
Shallow embedding of the HughesLabTools pipeline
(src/HughesLabTools/Device.py, DeviceManager.py, DeviceImage.py).

Conventions of the embedding:
* Python `None` / `str` / `list` values stored in `Device.image_paths` are
  modelled by the inductive `PathVal`; dictionaries are association lists
  with first-occurrence lookup and first-occurrence update, which agrees
  with Python `dict` semantics (all dicts here are built key-by-key, so
  keys are unique).
* Python exceptions are modelled with `Except`; the error payload carries
  the exception name and the mutated object state at the moment the
  exception is raised (CPython mutates in place, so partial updates that
  happened before the raise are visible to the caller).
* Calls to the `log` helpers are recorded as `(level, message)` pairs.
  Whether a call is actually printed is gated in the source (`WARNING`
  always, `INFO` only when verbose); the trace records the call itself.
* Pixel-level operations (contrast normalisation, LUT application, RGB
  conversion) are outside the modelled core, as is the filesystem; whether
  processing an image raises is abstracted by a success predicate, and
  image loading by an oracle `String → Option DImage`.
-/

/-- `os.path.abspath`.  Every path the pipeline feeds to it is produced by
`os.walk` rooted at an absolute `rootDir` and is therefore already absolute,
where `abspath` is the identity; no `.`/`..` normalisation is modelled. -/
def abspath (p : String) : String := p

/-- `posixpath.dirname`: the prefix up to the final slash; a head consisting
only of slashes is kept, otherwise trailing slashes are stripped. -/
def dirname (p : String) : String :=
  let cs := p.data
  let tailLen := (cs.reverse.takeWhile (fun c => c ≠ '/')).length
  let head := cs.take (cs.length - tailLen)
  if head ≠ [] ∧ ¬ (head.all (fun c => c = '/')) then
    String.mk ((head.reverse.dropWhile (fun c => c = '/')).reverse)
  else String.mk head

/-- `posixpath.basename`: the suffix after the final slash. -/
def basename (p : String) : String :=
  String.mk ((p.data.reverse.takeWhile (fun c => c ≠ '/')).reverse)

/-- `posixpath.splitext`: split off the extension at the last dot of the
basename, unless every character before that dot (inside the basename) is
itself a dot. -/
def splitext (p : String) : String × String :=
  let cs := p.data
  let nameRev := cs.reverse.takeWhile (fun c => c ≠ '/')
  let extRev := nameRev.takeWhile (fun c => c ≠ '.')
  if extRev.length = nameRev.length then (p, "")
  else
    let preRev := nameRev.drop (extRev.length + 1)
    if preRev.any (fun c => c ≠ '.') then
      (String.mk (cs.take (cs.length - extRev.length - 1)),
       String.mk ('.' :: extRev.reverse))
    else (p, "")

/-- `posixpath.join` restricted to two components, as used by the source. -/
def pathJoin (a b : String) : String :=
  if b.data.head? = some '/' then b
  else if a = "" ∨ a.data.getLast? = some '/' then a ++ b
  else a ++ "/" ++ b

/-- `file_name.split('.')[-1]`: the suffix after the last dot (the whole
string when there is no dot). -/
def lastDotComponent (s : String) : String :=
  String.mk ((s.data.reverse.takeWhile (fun c => c ≠ '.')).reverse)

/-- Python `needle in hay` on strings: contiguous-substring test. -/
def strCon (hay needle : String) : Bool :=
  decide (needle.data <:+: hay.data)

/-! ### Dictionaries as association lists -/

abbrev SDict (α : Type) : Type := List (String × α)

def akeys {α : Type} (d : SDict α) : List String := d.map Prod.fst

def aget {α : Type} : SDict α → String → Option α
  | [], _ => none
  | kv :: d, k => if kv.1 = k then some kv.2 else aget d k

/-- Python `dict[k] = v`: replace the (first) binding when the key is
present, append a fresh binding at the end otherwise. -/
def aset {α : Type} : SDict α → String → α → SDict α
  | [], k, v => [(k, v)]
  | kv :: d, k, v => if kv.1 = k then (k, v) :: d else kv :: aset d k v

/-- `{image_type: init for image_type in typeNames}`. -/
def initDict {α : Type} (v : α) (ts : List String) : SDict α :=
  ts.foldl (fun d t => aset d t v) []

/-! ### The Device data model (Device.py) -/

/-- A value of the `image_paths` dict: Python `None`, a single string (set
by `_set_image_paths_from_dict`), or a list of paths. -/
inductive PathVal where
  | null
  | str (s : String)
  | list (l : List String)
deriving DecidableEq

/-- Python truthiness of a `PathVal`. -/
def PathVal.truthy : PathVal → Bool
  | .null => false
  | .str s => s ≠ ""
  | .list l => !l.isEmpty

/-- Rendering used when a `PathVal` is interpolated into a log message. -/
def PathVal.render : PathVal → String
  | .null => "None"
  | .str s => s
  | .list l => String.intercalate ", " l

abbrev LogCall := String × String

structure Device where
  name : Option String
  typeNames : List String
  deviceDir : Option String
  verbose : Bool
  image_paths : SDict PathVal
  colored_image_paths : SDict (Option String)
deriving DecidableEq

/-- `Device.__init__`. -/
def Device.init (typeNames : List String) (name : Option String)
    (deviceDir : Option String) (verbose : Bool) : Device :=
  { name := name, typeNames := typeNames, deviceDir := deviceDir,
    verbose := verbose,
    image_paths := initDict PathVal.null typeNames,
    colored_image_paths := initDict Option.none typeNames }

/-- `str(self.name)` as used in format strings (`None` for a missing name). -/
def renderName : Option String → String
  | some n => n
  | none => "None"

/-- `Device._set_image_path`: guarded append.  With a `None` slot a fresh
list is created; appending to a string slot raises `AttributeError`. -/
def Device.set_image_path (d : Device) (image_type image_path : String) :
    Except (String × Device) Device :=
  match aget d.image_paths image_type with
  | some PathVal.null =>
      Except.ok { d with image_paths := aset d.image_paths image_type (PathVal.list [abspath image_path]) }
  | some (PathVal.list l) =>
      Except.ok { d with image_paths := aset d.image_paths image_type (PathVal.list (l ++ [abspath image_path])) }
  | some (PathVal.str _) => Except.error ("AttributeError", d)
  | none => Except.ok d

/-- `Device._set_image_paths_from_dict`: only existing keys are written,
each with a single (string) path. -/
def Device.set_image_paths_from_dict (d : Device) (m : List (String × String)) :
    Device :=
  { d with image_paths := m.foldl (fun acc kv => if kv.1 ∈ akeys acc then aset acc kv.1 (PathVal.str (abspath kv.2)) else acc) d.image_paths }

/-- `Device._set_image_paths_from_list`: unguarded assignment (adds the key
when it is absent). -/
def Device.set_image_paths_from_list (d : Device) (image_type : String)
    (l : List String) : Device :=
  { d with image_paths := aset d.image_paths image_type (PathVal.list (l.map abspath)) }

/-- The `image_paths` keyword argument of `Device.set_image_paths`. -/
inductive PathsArg where
  | omitted
  | dict (m : List (String × String))
  | list (l : List String)

/-- The final `elif image_type and image_path` branch of
`Device.set_image_paths`. -/
def Device.set_image_paths_last (d : Device) (image_type image_path : Option String) :
    Except (String × Device) Device :=
  match image_type, image_path with
  | some t, some p => if t ≠ "" ∧ p ≠ "" then d.set_image_path t p else Except.ok d
  | _, _ => Except.ok d

/-- The branch dispatch of `Device.set_image_paths` (everything before the
trailing log statement).  Python truthiness: empty dict/list arguments are
falsy and fall through. -/
def Device.set_image_paths_step (d : Device) (image_type image_path : Option String)
    (arg : PathsArg) : Except (String × Device) Device :=
  match arg, image_type with
  | PathsArg.dict (kv :: m), _ => Except.ok (d.set_image_paths_from_dict (kv :: m))
  | PathsArg.list (x :: l), some t =>
      if t ≠ "" then Except.ok (d.set_image_paths_from_list t (x :: l))
      else d.set_image_paths_last image_type image_path
  | _, _ => d.set_image_paths_last image_type image_path

/-- `Device.set_image_paths`.  The trailing log message unconditionally
evaluates `self.image_paths[image_type]`, raising `KeyError` when
`image_type` (possibly `None`) is not a key. -/
def Device.set_image_paths (d : Device) (image_type image_path : Option String)
    (arg : PathsArg) : Except (String × Device) (Device × List LogCall) :=
  match d.set_image_paths_step image_type image_path arg with
  | Except.error e => Except.error e
  | Except.ok d1 =>
      match image_type with
      | some t =>
          match aget d1.image_paths t with
          | some v =>
              Except.ok (d1, [("INFO", "Set image path for " ++ t ++ ": " ++ v.render)])
          | none => Except.error ("KeyError", d1)
      | none => Except.error ("KeyError", d1)

/-- Result of `Device.get_image_paths(image_type)`: the slot's value for a
truthy type name, or the entire dict when the argument is falsy. -/
inductive GetPathsResult where
  | val (v : PathVal)
  | dict (m : SDict PathVal)
deriving DecidableEq

/-- `Device.get_image_paths(image_type)` at the string-argument call shape
used by colorization: `if image_type:` — for a truthy (nonempty) name,
`dict.get` with default `[]`; for the falsy empty name the method falls
through and returns the whole `image_paths` dict. -/
def Device.get_image_paths (d : Device) (image_type : String) : GetPathsResult :=
  if image_type ≠ "" then
    GetPathsResult.val ((aget d.image_paths image_type).getD (PathVal.list []))
  else GetPathsResult.dict d.image_paths

/-- Result of `Device.get_colored_image_paths(image_type)`: the slot's
value for a truthy type name, or the entire dict when the argument is
falsy. -/
inductive GetColoredResult where
  | val (v : Option String)
  | dict (m : SDict (Option String))
deriving DecidableEq

/-- `Device.get_colored_image_paths(image_type)` at the string-argument
call shape used by merging: `if image_type:` — for a truthy (nonempty)
name, `dict.get` with default `None` (absent key and `None` value both
flatten to `none`); for the falsy empty name the method falls through and
returns the whole `colored_image_paths` dict. -/
def Device.get_colored (d : Device) (image_type : String) : GetColoredResult :=
  if image_type ≠ "" then GetColoredResult.val (aget d.colored_image_paths image_type).join
  else GetColoredResult.dict d.colored_image_paths

/-- `Device.set_colored_image_path`: guarded single-slot overwrite. -/
def Device.set_colored_image_path (d : Device) (image_type image_path : String) :
    Device × List LogCall :=
  if image_type ∈ akeys d.colored_image_paths then
    ({ d with colored_image_paths := aset d.colored_image_paths image_type (some (abspath image_path)) },
     [("INFO", "Set colored image path for " ++ image_type ++ ": " ++ abspath image_path)])
  else (d, [])

/-- The `# Add the image to the new type` tail of `Device.update_image_type`:
reset an absent or `None` slot to `[]`, then `.append` (which raises
`AttributeError` on a string slot). -/
def Device.update_append (d : Device) (image_path new_type : String) :
    Except (String × Device) Device :=
  let d2 :=
    match aget d.image_paths new_type with
    | none => { d with image_paths := aset d.image_paths new_type (PathVal.list []) }
    | some PathVal.null => { d with image_paths := aset d.image_paths new_type (PathVal.list []) }
    | some _ => d
  match aget d2.image_paths new_type with
  | some (PathVal.list l) =>
      Except.ok { d2 with image_paths := aset d2.image_paths new_type (PathVal.list (l ++ [image_path])) }
  | _ => Except.error ("AttributeError", d2)

/-- The removal phase of `Device.update_image_type`: the membership test
`image_path in self.image_paths[old_type]` raises `TypeError` on a `None`
slot and is a substring test on a string slot (whose `.remove` would raise
`AttributeError`); on a list it removes the first occurrence, collapsing an
emptied list to `None`. -/
def Device.update_remove (d : Device) (image_path old_type : String) :
    PathVal → Except (String × Device) Device
  | PathVal.null => Except.error ("TypeError", d)
  | PathVal.str s =>
      if strCon s image_path then Except.error ("AttributeError", d)
      else Except.ok d
  | PathVal.list l =>
      if image_path ∈ l then
        let l2 := l.erase image_path
        Except.ok { d with image_paths := aset d.image_paths old_type (if l2 = [] then PathVal.null else PathVal.list l2) }
      else Except.ok d

/-- `Device.update_image_type`.  Note that the append to `new_type` is
executed whether or not the removal in the first phase happened. -/
def Device.update_image_type (d : Device) (image_path old_type new_type : String) :
    Except (String × Device) (Device × List LogCall) :=
  match aget d.image_paths old_type with
  | none =>
      Except.ok (d, [("INFO", "Error: Old type " ++ old_type ++
        " not found for image " ++ image_path ++ ".")])
  | some oldVal =>
      match d.update_remove image_path old_type oldVal with
      | Except.error e => Except.error e
      | Except.ok d1 =>
          match d1.update_append image_path new_type with
          | Except.error e => Except.error e
          | Except.ok d2 =>
              Except.ok (d2, [("INFO", "Updated image type for " ++ image_path ++
                " from " ++ old_type ++ " to " ++ new_type ++ ".")])

/-- Output path of one colorized image:
`<deviceDir>/colored/<basename(base)>_colored<ext>`. -/
def coloredOutputPath (deviceDir image_path : String) : String :=
  let be := splitext image_path
  pathJoin (pathJoin deviceDir "colored") (basename be.1 ++ "_colored" ++ be.2)

/-- `Device._apply_color_to_single_image`.  `ok` abstracts whether the
try-block (load, colorize, save) succeeds for the path; any failure —
including a `None` device directory — is caught and logged as a warning. -/
def Device.apply_color_to_single_image (d : Device) (ok : String → Bool)
    (img_type image_path : String) : Device × List LogCall :=
  match d.deviceDir with
  | some dd =>
      if ok image_path then
        let outPath := coloredOutputPath dd image_path
        let r := d.set_colored_image_path img_type outPath
        (r.1, ("INFO", "Saved colored image at: " ++ outPath) :: r.2)
      else (d, [("WARNING", "Error applying color to image: " ++ image_path)])
  | none => (d, [("WARNING", "Error applying color to image: " ++ image_path)])

/-- The per-type loop body of `Device.apply_color_to_images`, iterating over
`zip(self.typeNames, typeColors)`.  The color itself only affects pixels,
which are outside the modelled state.  A falsy (empty) type name makes
`get_image_paths` return the whole dict: when nonempty (truthy) that dict
is wrapped as the single "image path", and `_apply_color_to_single_image`
then fails to load it (`os.path.exists` on a dict raises) — the exception
is caught and logged, the device untouched. -/
def Device.apply_color_images_aux (ok : String → Bool) :
    Device → List (String × String) → Device × List LogCall
  | d, [] => (d, [])
  | d, (img_type, _color) :: rest =>
      match d.get_image_paths img_type with
      | GetPathsResult.val v =>
          if v.truthy then
            let paths : List String :=
              match v with
              | PathVal.list l => l
              | PathVal.str s => [s]
              | PathVal.null => []
            let step := paths.foldl (fun acc p =>
              let r := Device.apply_color_to_single_image acc.1 ok img_type p
              (r.1, acc.2 ++ r.2)) (d, ([] : List LogCall))
            let rest' := Device.apply_color_images_aux ok step.1 rest
            (rest'.1, step.2 ++ rest'.2)
          else
            let rest' := Device.apply_color_images_aux ok d rest
            (rest'.1, ("INFO", "No image paths found for type: " ++ img_type) :: rest'.2)
      | GetPathsResult.dict m =>
          let rest' := Device.apply_color_images_aux ok d rest
          if m.isEmpty then
            (rest'.1, ("INFO", "No image paths found for type: " ++ img_type) :: rest'.2)
          else
            (rest'.1, ("WARNING", "Error applying color to image: dict " ++
              String.intercalate ", " (akeys m)) :: rest'.2)

/-- `Device.apply_color_to_images`. -/
def Device.apply_color_to_images (d : Device) (typeColors : List String)
    (ok : String → Bool) : Device × List LogCall :=
  Device.apply_color_images_aux ok d (d.typeNames.zip typeColors)

/-! ### Images and the merge engine (Device.py, DeviceImage.py) -/

/-- A loaded image: title, dimensions, and an abstract pixel buffer.
`pix x y` is the pixel value at column `x`, row `y` (meaningful for
`x < width`, `y < height`). -/
structure DImage where
  title : String
  width : Nat
  height : Nat
  pix : Nat → Nat → Int

/-- `min(f(img) for img in images)` over a nonempty list `i0 :: rest`. -/
def listMinBy (f : DImage → Nat) (i0 : DImage) (rest : List DImage) : Nat :=
  rest.foldl (fun a i => min a (f i)) (f i0)

/-- `Device._crop_to_smallest_dimensions`: every image is cropped to the
minimum width and height via `setRoi(0, 0, min_width, min_height)` followed
by `crop()`, i.e. to the top-left-aligned region — pixel `(x, y)` of the
crop is pixel `(x, y)` of the original, so the pixel function is carried
over unchanged.  The title is preserved. -/
def Device.crop_to_smallest_dimensions (images : List DImage) :
    Except String (List DImage) :=
  match images with
  | [] => Except.error "ValueError: No images provided for cropping."
  | i0 :: rest =>
      let minW := listMinBy (fun i => i.width) i0 rest
      let minH := listMinBy (fun i => i.height) i0 rest
      Except.ok ((i0 :: rest).map (fun img =>
        { title := img.title, width := minW, height := minH, pix := img.pix }))

/-- `Device._merge_images`: harmonize dimensions if needed, build an
`ImageStack` at the dimensions of the first (possibly cropped) image, and
compute the `sum` Z-projection: each output pixel is the arithmetic sum of
the corresponding pixels of all slices.  The output title is the
underscore-join of the slice titles plus `_merged`.  (Saturation to the
output format's range happens at pixel depth, outside the model.) -/
def Device.merge_images_core (images : List DImage) : Except String DImage :=
  match images with
  | [] => Except.error "ValueError: No images provided for merging."
  | i0 :: rest =>
      let sameDims := (i0 :: rest).all (fun i => i.width == i0.width && i.height == i0.height)
      let harmonized : Except String (List DImage) :=
        if sameDims then Except.ok (i0 :: rest)
        else Device.crop_to_smallest_dimensions (i0 :: rest)
      match harmonized with
      | Except.error e => Except.error e
      | Except.ok [] => Except.error "IndexError"
      | Except.ok (j0 :: js) =>
          Except.ok { title := String.intercalate "_" ((j0 :: js).map (fun i => i.title)) ++ "_merged",
                      width := j0.width, height := j0.height,
                      pix := fun x y => ((j0 :: js).map (fun i => i.pix x y)).sum }

/-- An item collected by `Device.merge_images`: a real colored path, or —
for a falsy (empty) configured type name — the entire colored dict that
`get_colored_image_paths` returned (a dict is truthy whenever it has any
key, so it survives the `if path` filter). -/
inductive ColoredItem where
  | path (p : String)
  | dict (m : SDict (Option String))
deriving DecidableEq

def ColoredItem.render : ColoredItem → String
  | .path p => p
  | .dict m => "dict " ++ String.intercalate ", " (akeys m)

/-- The collection step of `Device.merge_images`: `coloredPaths[type]` for
every configured type in order, dropping `None` slots and empty strings
(Python truthiness); a falsy type name contributes the whole colored dict
when that dict is nonempty. -/
def Device.collect_colored (d : Device) : List ColoredItem :=
  d.typeNames.foldl (fun acc t =>
    acc ++ (match d.get_colored t with
            | GetColoredResult.val (some p) => if p ≠ "" then [ColoredItem.path p] else []
            | GetColoredResult.val none => []
            | GetColoredResult.dict m =>
                if m.isEmpty then [] else [ColoredItem.dict m])) []

/-- `[self._load_image(path) for path in all_colored_image_paths]` with the
loading oracle; the first failure raises (and is caught by the caller).
Loading a dict item always raises (`os.path.exists` on a dict). -/
def loadAllItems (load : String → Option DImage) : List ColoredItem → Option (List DImage)
  | [] => some []
  | ColoredItem.path p :: ps =>
      match load p with
      | none => none
      | some i =>
          match loadAllItems load ps with
          | none => none
          | some is => some (i :: is)
  | ColoredItem.dict _ :: _ => none

/-- `Device.merge_images`: the whole body runs inside `try/except`, so no
error escapes to the caller; the device state is never written.  The third
component is the saved output (path and merged image), `none` when nothing
was written. -/
def Device.merge_images (d : Device) (load : String → Option DImage) :
    Device × List LogCall × Option (String × DImage) :=
  let ps := d.collect_colored
  if ps ≠ [] then
    let lg0 : List LogCall :=
      [("INFO", "Colored image paths to merge: " ++
        String.intercalate ", " (ps.map ColoredItem.render))]
    match loadAllItems load ps with
    | none => (d, lg0 ++ [("WARNING", "Error merging images for device: " ++ renderName d.name)], none)
    | some imgs =>
        let lg1 := lg0 ++ [("INFO", "Loaded " ++ toString imgs.length ++ " images for merging.")]
        match Device.merge_images_core imgs with
        | Except.error _ =>
            (d, lg1 ++ [("WARNING", "Error merging images for device: " ++ renderName d.name)], none)
        | Except.ok merged =>
            match d.deviceDir with
            | none =>
                (d, lg1 ++ [("WARNING", "Error merging images for device: " ++ renderName d.name)], none)
            | some dd =>
                let outPath := pathJoin (pathJoin dd "merged") (renderName d.name ++ "_merged.tif")
                (d, lg1 ++ [("INFO", "Merged image saved for device: " ++ renderName d.name)],
                 some (outPath, merged))
  else
    (d, [("INFO", "No colored images found to merge for device: " ++ renderName d.name)], none)

/-! ### Natural sort (DeviceManager._natural_sort_key) -/

/-- One comparison key element: `int(text)` for digit runs, `text.lower()`
for the rest.  In the Python 2 runtime of the source, an `int` always
compares less than a `str`. -/
inductive NK where
  | num (n : Nat)
  | str (s : String)
deriving DecidableEq

/-- Maximal runs of characters sharing the digit/non-digit class, tagged
with that class.  Helper for the `re.split(r'([0-9]+)', s)` model. -/
def charRunsAux (b : Bool) (cur : List Char) : List Char → List (Bool × List Char)
  | [] => [(b, cur.reverse)]
  | c :: cs =>
      if c.isDigit = b then charRunsAux b (c :: cur) cs
      else (b, cur.reverse) :: charRunsAux c.isDigit [c] cs

def charRuns : List Char → List (Bool × List Char)
  | [] => []
  | c :: cs => charRunsAux c.isDigit [c] cs

/-- `int(text)` on a run of decimal digits. -/
def natOfDigits (cs : List Char) : Nat :=
  cs.foldl (fun a c => a * 10 + (c.toNat - 48)) 0

/-- `DeviceManager._natural_sort_key`:
`[int(text) if text.isdigit() else text.lower() for text in re.split(r'([0-9]+)', s)]`.
`re.split` with a capturing group yields the (possibly empty) text before
the first digit run, the digit runs, the texts between them, and the
(possibly empty) text after the last run; the empty boundary pieces are not
digits, so they lower to the empty string. -/
def natural_sort_key (s : String) : List NK :=
  match charRuns s.data with
  | [] => [NK.str ""]
  | r :: rs =>
      (if r.1 then [NK.str ""] else []) ++
      ((r :: rs).map (fun br =>
        if br.1 then NK.num (natOfDigits br.2)
        else NK.str (String.mk (br.2.map Char.toLower)))) ++
      (if ((r :: rs).getLastD r).1 then [NK.str ""] else [])

/-- Python `<` on strings: lexicographic by code point (byte-wise for the
ASCII paths handled here), a proper prefix being smaller. -/
def strLtB : List Char → List Char → Bool
  | _, [] => false
  | [], _ :: _ => true
  | a :: as, b :: bs =>
      if a.toNat < b.toNat then true
      else if b.toNat < a.toNat then false
      else strLtB as bs

/-- Python 2 `<` between key elements: numbers before strings, numbers by
value, strings byte-lexicographically. -/
def NK.ltB : NK → NK → Bool
  | .num a, .num b => decide (a < b)
  | .num _, .str _ => true
  | .str _, .num _ => false
  | .str a, .str b => strLtB a.data b.data

/-- Python `<=` on lists of key elements (lexicographic: strictly smaller
head, or equal head and `<=` tails; a prefix is `<=` its extensions). -/
def keyLe : List NK → List NK → Bool
  | [], _ => true
  | _ :: _, [] => false
  | a :: as, b :: bs => a.ltB b || (a == b && keyLe as bs)

/-- The sort relation used by `sorted(image_files, key=_natural_sort_key)`. -/
def natSortRel (a b : String) : Prop := keyLe (natural_sort_key a) (natural_sort_key b) = true

instance : DecidableRel natSortRel := fun a b =>
  Bool.decEq (keyLe (natural_sort_key a) (natural_sort_key b)) true

/-! ### DeviceManager: scanning order, grouping, orchestration -/

/-- `DeviceManager._is_valid_format`: the extension after the last dot,
lowercased, must be one of the accepted formats. -/
def DeviceManager.is_valid_format (file_name : String) (formats : List String) : Bool :=
  String.mk ((lastDotComponent file_name).data.map Char.toLower) ∈ formats

/-- `DeviceManager._get_sorted_image_files`: join each valid file onto the
directory, then sort by the natural key.  Python's `sorted` is a stable
sort with respect to the key order; `insertionSort` with the same total
preorder produces the same (stable) result. -/
def DeviceManager.get_sorted_image_files (root : String) (files : List String)
    (formats : List String) : List String :=
  List.insertionSort natSortRel
    ((files.filter (fun f => DeviceManager.is_valid_format f formats)).map
      (fun f => pathJoin root f))

/-- The inner loop of `walk_directory_and_add_images`: assign
`image_files[device_idx * numTypes + type_idx]` to each enumerated type,
guarded by the bounds check of the source. -/
def DeviceManager.assign_types (image_files : List String) (numTypes devIdx : Nat) :
    Device → List (Nat × String) → Except (String × Device) (Device × List LogCall)
  | d, [] => Except.ok (d, [])
  | d, (tIdx, t) :: rest =>
      let imgIndex := devIdx * numTypes + tIdx
      if imgIndex < image_files.length then
        match d.set_image_paths (some t) (some (image_files.getD imgIndex "")) PathsArg.omitted with
        | Except.error e => Except.error e
        | Except.ok (d1, lg) =>
            match DeviceManager.assign_types image_files numTypes devIdx d1 rest with
            | Except.error e => Except.error e
            | Except.ok (d2, lg2) => Except.ok (d2, lg ++ lg2)
      else DeviceManager.assign_types image_files numTypes devIdx d rest

/-- One iteration of the device loop of `walk_directory_and_add_images`:
name `Device_{k+1}`, device directory from the first assigned file,
then type assignment in configured order. -/
def DeviceManager.build_device (typeNames : List String) (numTypes : Nat)
    (verbose : Bool) (image_files : List String) (devIdx : Nat) :
    Except (String × Device) (Device × List LogCall) :=
  let deviceName := "Device_" ++ toString (devIdx + 1)
  let deviceDir := dirname (image_files.getD (devIdx * numTypes) "")
  let d0 := Device.init typeNames (some deviceName) (some deviceDir) verbose
  match DeviceManager.assign_types image_files numTypes devIdx d0 typeNames.enum with
  | Except.error e => Except.error e
  | Except.ok (d, lg) =>
      Except.ok (d, ("INFO", "Added device: " ++ deviceName) :: lg)

def DeviceManager.build_devices (typeNames : List String) (numTypes : Nat)
    (verbose : Bool) (image_files : List String) :
    List Nat → Except (String × Device) (List Device × List LogCall)
  | [] => Except.ok ([], [])
  | k :: ks =>
      match DeviceManager.build_device typeNames numTypes verbose image_files k with
      | Except.error e => Except.error e
      | Except.ok (d, lg) =>
          match DeviceManager.build_devices typeNames numTypes verbose image_files ks with
          | Except.error e => Except.error e
          | Except.ok (ds, lg2) => Except.ok (d :: ds, lg ++ lg2)

/-- `DeviceManager.walk_directory_and_add_images`, starting from the flat
scanned file list (scanning itself only reads the filesystem).  A file
count that is not a multiple of `numTypes` logs a diagnostic and returns
with zero devices; `numTypes = 0` would raise `ZeroDivisionError` at the
modulo in Python. -/
def DeviceManager.walk_directory_and_add_images (typeNames : List String)
    (numTypes : Nat) (verbose : Bool) (image_files : List String) :
    Except String (List Device × List LogCall) :=
  if numTypes = 0 then Except.error "ZeroDivisionError"
  else if image_files.length % numTypes ≠ 0 then
    Except.ok ([], [("INFO", "Warning: The number of images is not a multiple of the number of types.")])
  else
    match DeviceManager.build_devices typeNames numTypes verbose image_files
        (List.range (image_files.length / numTypes)) with
    | Except.error e => Except.error e.1
    | Except.ok (ds, lg) =>
        Except.ok (ds, lg ++ [("INFO", "Assigned images to " ++
          toString (image_files.length / numTypes) ++ " devices.")])

/-- The configuration flags consumed by `run_selected_processes`.
(`sat`, a float passed verbatim to the contrast call, and the show flags
only affect display and pixel values, outside the modelled state.) -/
structure Options where
  confirm_image_types : Bool
  color : Bool
  merge : Bool
deriving DecidableEq

/-- The per-device body of the loop in `run_selected_processes`.  The
interactive type-confirmation stage (`ImageTypeChangerGui`) is dialog
driven; it is passed in as `confirmStage`, an arbitrary state transformer
standing for that interaction.  The last component collects the merge
outputs written for the device. -/
def DeviceManager.process_device (opts : Options) (typeColors : List String)
    (ok : String → Bool) (load : String → Option DImage)
    (confirmStage : Device → Except (String × Device) Device) (d : Device) :
    Except (String × Device) (Device × List LogCall × List (String × DImage)) :=
  let step1 : Except (String × Device) (Device × List LogCall) :=
    if opts.confirm_image_types then
      match confirmStage d with
      | Except.error e => Except.error e
      | Except.ok d1 =>
          Except.ok (d1, [("INFO", "Confirming image types for device: " ++ renderName d.name)])
    else Except.ok (d, [])
  match step1 with
  | Except.error e => Except.error e
  | Except.ok (d1, lg1) =>
      let step2 : Device × List LogCall :=
        if opts.color then
          let r := d1.apply_color_to_images typeColors ok
          (r.1, ("INFO", "Applying color to device: " ++ renderName d1.name) :: r.2)
        else (d1, [])
      let step3 : Device × List LogCall × List (String × DImage) :=
        if opts.merge then
          let r := step2.1.merge_images load
          (r.1, ("INFO", "Merging images for device: " ++ renderName step2.1.name) :: r.2.1,
           match r.2.2 with | some o => [o] | none => [])
        else (step2.1, [], [])
      Except.ok (step3.1, lg1 ++ step2.2 ++ step3.2.1, step3.2.2)

def DeviceManager.process_devices (opts : Options) (typeColors : List String)
    (ok : String → Bool) (load : String → Option DImage)
    (confirmStage : Device → Except (String × Device) Device) :
    List Device → Except (String × Device) (List Device × List LogCall × List (String × DImage))
  | [] => Except.ok ([], [], [])
  | d :: ds =>
      match DeviceManager.process_device opts typeColors ok load confirmStage d with
      | Except.error e => Except.error e
      | Except.ok (d1, lg, outs) =>
          match DeviceManager.process_devices opts typeColors ok load confirmStage ds with
          | Except.error e => Except.error e
          | Except.ok (ds1, lg2, outs2) => Except.ok (d1 :: ds1, lg ++ lg2, outs ++ outs2)

/-- `DeviceManager.run_selected_processes`: walk/group, then run the
selected stages device by device. -/
def DeviceManager.run_selected_processes (typeNames : List String) (numTypes : Nat)
    (typeColors : List String) (verbose : Bool) (opts : Options)
    (image_files : List String) (ok : String → Bool) (load : String → Option DImage)
    (confirmStage : Device → Except (String × Device) Device) :
    Except String (List Device × List LogCall × List (String × DImage)) :=
  match DeviceManager.walk_directory_and_add_images typeNames numTypes verbose image_files with
  | Except.error e => Except.error e
  | Except.ok (ds, lg) =>
      match DeviceManager.process_devices opts typeColors ok load confirmStage ds with
      | Except.error e => Except.error e.1
      | Except.ok (ds2, lg2, outs) =>
          Except.ok (ds2, lg ++ lg2 ++ [("INFO", "Finished processing all devices.")], outs)

/-! ### Helpers for stating results, and concrete instances -/

/-- The device state observable after a call: the final state on success,
or the state carried by the exception at the moment it was raised. -/
def resState (r : Except (String × Device) (Device × List LogCall)) : Device :=
  match r with
  | Except.ok p => p.1
  | Except.error e => e.2

def resStateD (r : Except (String × Device) Device) : Device :=
  match r with
  | Except.ok d => d
  | Except.error e => e.2

/-- The path list held by a raw-path slot (`[]` for `None`, a string value,
or an absent key). -/
def pvList : Option PathVal → List String
  | some (PathVal.list l) => l
  | _ => []

/-- A concrete device: two configured types, one raw image assigned to `A`. -/
def devAB : Device :=
  { name := some "Device_1", typeNames := ["A", "B"], deviceDir := some "/r",
    verbose := false,
    image_paths := [("A", PathVal.list ["/r/p.tif"]), ("B", PathVal.null)],
    colored_image_paths := [("A", none), ("B", none)] }

/-- A concrete device in which `"/r/p.tif"` occurs twice in type `A`'s raw
list (reachable by calling `set_image_paths` twice with the same path). -/
def devDup : Device :=
  { devAB with image_paths := [("A", PathVal.list ["/r/p.tif", "/r/p.tif"]), ("B", PathVal.null)] }

/-- A concrete one-type device with two raw images assigned to `A`. -/
def devColor : Device :=
  { name := some "Device_1", typeNames := ["A"], deviceDir := some "/r",
    verbose := false,
    image_paths := [("A", PathVal.list ["/r/p1.tif", "/r/p2.tif"])],
    colored_image_paths := [("A", none)] }

/-- Concrete images for the merge examples. -/
def img100a : DImage := { title := "a", width := 100, height := 100, pix := fun _ _ => 50 }

def img100b : DImage := { title := "b", width := 100, height := 100, pix := fun _ _ => 60 }

def img80x120 : DImage := { title := "c", width := 80, height := 120, pix := fun _ _ => 7 }

/-- `true` unless the slot holds a Python string (on which `.remove`/`.append`
would raise `AttributeError`). -/
def notStr : Option PathVal → Bool
  | some (PathVal.str _) => false
  | _ => true

/-- All `Device` fields other than `image_paths` agree (raw-path
operations never touch them). -/
def sameMeta (d1 d0 : Device) : Prop :=
  d1.name = d0.name ∧ d1.typeNames = d0.typeNames ∧ d1.deviceDir = d0.deviceDir ∧
  d1.verbose = d0.verbose ∧ d1.colored_image_paths = d0.colored_image_paths

theorem char_toNat_inj {a b : Char} (h : a.toNat = b.toNat) : a = b :=
  Char.ext (UInt32.ext h)

theorem strLtB_trans : ∀ as bs cs : List Char,
    strLtB as bs = true → strLtB bs cs = true → strLtB as cs = true := by
  intro as
  induction as with
  | nil =>
      intro bs cs h1 h2
      cases cs with
      | nil => simp [strLtB] at h2
      | cons c cs => rfl
  | cons a as ih =>
      intro bs cs h1 h2
      cases bs with
      | nil => simp [strLtB] at h1
      | cons b bs =>
          cases cs with
          | nil => simp [strLtB] at h2
          | cons c cs =>
              by_cases hab : a.toNat < b.toNat
              · by_cases hbc : b.toNat < c.toNat
                · have hac : a.toNat < c.toNat := Nat.lt_trans hab hbc
                  simp [strLtB, hac]
                · by_cases hcb : c.toNat < b.toNat
                  · simp [strLtB, hbc, hcb] at h2
                  · have hac : a.toNat < c.toNat := by omega
                    simp [strLtB, hac]
              · by_cases hba : b.toNat < a.toNat
                · simp [strLtB, hab, hba] at h1
                · simp only [strLtB, if_neg hab, if_neg hba] at h1
                  by_cases hbc : b.toNat < c.toNat
                  · have hac : a.toNat < c.toNat := by omega
                    simp [strLtB, hac]
                  · by_cases hcb : c.toNat < b.toNat
                    · simp [strLtB, hbc, hcb] at h2
                    · simp only [strLtB, if_neg hbc, if_neg hcb] at h2
                      have hac : ¬ a.toNat < c.toNat := by omega
                      have hca : ¬ c.toNat < a.toNat := by omega
                      simp only [strLtB, if_neg hac, if_neg hca]
                      exact ih bs cs h1 h2

theorem strLtB_tri : ∀ as bs : List Char,
    strLtB as bs = true ∨ as = bs ∨ strLtB bs as = true := by
  intro as
  induction as with
  | nil =>
      intro bs
      cases bs with
      | nil => exact Or.inr (Or.inl rfl)
      | cons b bs => exact Or.inl rfl
  | cons a as ih =>
      intro bs
      cases bs with
      | nil => exact Or.inr (Or.inr rfl)
      | cons b bs =>
          rcases Nat.lt_trichotomy a.toNat b.toNat with h | h | h
          · exact Or.inl (by simp [strLtB, h])
          · have hab : a = b := char_toNat_inj h
            subst hab
            rcases ih bs with h2 | h2 | h2
            · exact Or.inl (by simp [strLtB, h2])
            · exact Or.inr (Or.inl (by rw [h2]))
            · exact Or.inr (Or.inr (by simp [strLtB, h2]))
          · exact Or.inr (Or.inr (by simp [strLtB, h]))

theorem NK.ltB_trans {a b c : NK} (hab : a.ltB b = true) (hbc : b.ltB c = true) :
    a.ltB c = true := by
  cases a <;> cases b <;> cases c <;> simp [NK.ltB] at *
  · exact Nat.lt_trans hab hbc
  · exact strLtB_trans _ _ _ hab hbc

theorem NK.ltB_tri (a b : NK) : a.ltB b = true ∨ a = b ∨ b.ltB a = true := by
  cases a with
  | num m =>
      cases b with
      | num n =>
          rcases Nat.lt_trichotomy m n with h | h | h
          · exact Or.inl (by simp [NK.ltB, h])
          · exact Or.inr (Or.inl (by rw [h]))
          · exact Or.inr (Or.inr (by simp [NK.ltB, h]))
      | str t => exact Or.inl (by simp [NK.ltB])
  | str s =>
      cases b with
      | num n => exact Or.inr (Or.inr (by simp [NK.ltB]))
      | str t =>
          rcases strLtB_tri s.data t.data with h | h | h
          · exact Or.inl (by simp [NK.ltB, h])
          · have hst : s = t := by
              cases s
              cases t
              exact congrArg String.mk h
            exact Or.inr (Or.inl (by rw [hst]))
          · exact Or.inr (Or.inr (by simp [NK.ltB, h]))

theorem keyLe_total : ∀ u v : List NK, keyLe u v = true ∨ keyLe v u = true := by
  intro u
  induction u with
  | nil => intro v; exact Or.inl rfl
  | cons a as ih =>
      intro v
      cases v with
      | nil => exact Or.inr rfl
      | cons b bs =>
          rcases NK.ltB_tri a b with h | h | h
          · exact Or.inl (by simp [keyLe, h])
          · subst h
            rcases ih bs with h2 | h2
            · exact Or.inl (by simp [keyLe, h2])
            · exact Or.inr (by simp [keyLe, h2])
          · exact Or.inr (by simp [keyLe, h])

theorem keyLe_trans : ∀ u v w : List NK,
    keyLe u v = true → keyLe v w = true → keyLe u w = true := by
  intro u
  induction u with
  | nil => intro v w _ _; rfl
  | cons a as ih =>
      intro v w huv hvw
      cases v with
      | nil => simp [keyLe] at huv
      | cons b bs =>
          cases w with
          | nil => simp [keyLe] at hvw
          | cons c cs =>
              simp only [keyLe, Bool.or_eq_true, Bool.and_eq_true, beq_iff_eq] at huv hvw ⊢
              rcases huv with h1 | ⟨rfl, h1⟩
              · rcases hvw with h2 | ⟨rfl, h2⟩
                · exact Or.inl (NK.ltB_trans h1 h2)
                · exact Or.inl h1
              · rcases hvw with h2 | ⟨rfl, h2⟩
                · exact Or.inl h2
                · exact Or.inr ⟨rfl, ih bs cs h1 h2⟩

instance : IsTotal String natSortRel :=
  ⟨fun a b => keyLe_total (natural_sort_key a) (natural_sort_key b)⟩

instance : IsTrans String natSortRel :=
  ⟨fun a b c => keyLe_trans (natural_sort_key a) (natural_sort_key b) (natural_sort_key c)⟩

/-! ### Dictionary lemmas -/

theorem akeys_cons {α : Type} (kv : String × α) (d : SDict α) :
    akeys (kv :: d) = kv.1 :: akeys d := rfl

theorem aget_aset_self {α : Type} : ∀ (d : SDict α) (k : String) (v : α),
    aget (aset d k v) k = some v := by
  intro d k v
  induction d with
  | nil => simp [aset, aget]
  | cons kv d ih =>
      by_cases h : kv.1 = k
      · simp [aset, h, aget]
      · simp [aset, h, aget, ih]

theorem aget_aset_ne {α : Type} : ∀ (d : SDict α) {k k' : String} (v : α), k' ≠ k →
    aget (aset d k v) k' = aget d k' := by
  intro d
  induction d with
  | nil =>
      intro k k' v h
      have h' : ¬ k = k' := fun hh => h hh.symm
      simp [aset, aget, h']
  | cons kv d ih =>
      intro k k' v h
      by_cases hk : kv.1 = k
      · subst hk
        have h' : ¬ kv.1 = k' := fun hh => h hh.symm
        simp [aset, aget, h']
      · simp only [aset, if_neg hk]
        by_cases hk' : kv.1 = k'
        · simp [aget, hk']
        · simp [aget, hk', ih v h]

theorem akeys_append {α : Type} (d1 d2 : SDict α) :
    akeys (d1 ++ d2) = akeys d1 ++ akeys d2 := List.map_append _ _ _

theorem akeys_aset_mem {α : Type} : ∀ (d : SDict α) {k : String} (v : α),
    k ∈ akeys d → akeys (aset d k v) = akeys d := by
  intro d
  induction d with
  | nil => intro k v h; simp [akeys] at h
  | cons kv d ih =>
      intro k v h
      by_cases hk : kv.1 = k
      · simp [aset, hk, akeys_cons]
      · rw [akeys_cons] at h
        rcases List.mem_cons.mp h with h1 | h1
        · exact absurd h1.symm hk
        · simp [aset, hk, akeys_cons, ih v h1]

theorem akeys_aset_not_mem {α : Type} : ∀ (d : SDict α) {k : String} (v : α),
    k ∉ akeys d → akeys (aset d k v) = akeys d ++ [k] := by
  intro d
  induction d with
  | nil => intro k v _; simp [aset, akeys]
  | cons kv d ih =>
      intro k v h
      rw [akeys_cons] at h
      have h2 := not_or.mp (fun hh => h (List.mem_cons.mpr hh))
      have hne : ¬ kv.1 = k := fun hh => h2.1 hh.symm
      simp [aset, hne, akeys_cons, ih v h2.2]

theorem akeys_aset_prefix {α : Type} (d : SDict α) (k : String) (v : α) :
    akeys d <+: akeys (aset d k v) := by
  by_cases h : k ∈ akeys d
  · rw [akeys_aset_mem d v h]
  · rw [akeys_aset_not_mem d v h]; exact ⟨[k], rfl⟩

theorem aget_eq_none_of_not_mem {α : Type} : ∀ (d : SDict α) {k : String},
    k ∉ akeys d → aget d k = none := by
  intro d
  induction d with
  | nil => intro k _; rfl
  | cons kv d ih =>
      intro k h
      rw [akeys_cons] at h
      have h2 := not_or.mp (fun hh => h (List.mem_cons.mpr hh))
      have hne : ¬ kv.1 = k := fun hh => h2.1 hh.symm
      simp [aget, hne, ih h2.2]

theorem aget_isSome_of_mem {α : Type} : ∀ (d : SDict α) {k : String},
    k ∈ akeys d → (aget d k).isSome := by
  intro d
  induction d with
  | nil => intro k h; simp [akeys] at h
  | cons kv d ih =>
      intro k h
      by_cases hk : kv.1 = k
      · simp [aget, hk]
      · rw [akeys_cons] at h
        rcases List.mem_cons.mp h with h1 | h1
        · exact absurd h1.symm hk
        · simp [aget, hk, ih h1]

theorem mem_of_aget_eq_some {α : Type} : ∀ (d : SDict α) {k : String} {v : α},
    aget d k = some v → k ∈ akeys d := by
  intro d
  induction d with
  | nil => intro k v h; simp [aget] at h
  | cons kv d ih =>
      intro k v h
      by_cases hk : kv.1 = k
      · rw [akeys_cons]; exact List.mem_cons.mpr (Or.inl hk.symm)
      · rw [aget, if_neg hk] at h
        rw [akeys_cons]
        exact List.mem_cons.mpr (Or.inr (ih h))

theorem aset_not_mem_eq_append {α : Type} : ∀ (d : SDict α) {k : String} (v : α),
    k ∉ akeys d → aset d k v = d ++ [(k, v)] := by
  intro d
  induction d with
  | nil => intro k v _; rfl
  | cons kv d ih =>
      intro k v h
      rw [akeys_cons] at h
      have h2 := not_or.mp (fun hh => h (List.mem_cons.mpr hh))
      have hne : ¬ kv.1 = k := fun hh => h2.1 hh.symm
      simp [aset, hne, ih v h2.2]

theorem foldl_aset_const {α : Type} (v : α) : ∀ (ts : List String) (d : SDict α),
    (∀ t ∈ ts, t ∉ akeys d) → ts.Nodup →
    ts.foldl (fun d t => aset d t v) d = d ++ ts.map (fun t => (t, v)) := by
  intro ts
  induction ts with
  | nil => intro d _ _; simp
  | cons t ts ih =>
      intro d hmem hnd
      rw [List.nodup_cons] at hnd
      rw [List.foldl_cons, aset_not_mem_eq_append d v (hmem t (List.mem_cons_self t ts))]
      have hrest : ∀ u ∈ ts, u ∉ akeys (d ++ [(t, v)]) := by
        intro u hu
        have hut : u ≠ t := fun hh => hnd.1 (hh ▸ hu)
        have hud : u ∉ akeys d := hmem u (List.mem_cons_of_mem t hu)
        rw [akeys_append]
        simp only [akeys, List.map_cons, List.map_nil, List.mem_append, List.mem_singleton]
        push_neg
        exact ⟨hud, hut⟩
      rw [ih (d ++ [(t, v)]) hrest hnd.2]
      simp

theorem initDict_eq_map {α : Type} (v : α) (ts : List String) (h : ts.Nodup) :
    initDict v ts = ts.map (fun t => (t, v)) := by
  unfold initDict
  rw [foldl_aset_const v ts [] (by intro t _; simp [akeys]) h]
  simp

theorem aget_map_const {α : Type} (v : α) : ∀ (ts : List String) (t : String),
    aget (ts.map (fun u => (u, v))) t = if t ∈ ts then some v else none := by
  intro ts
  induction ts with
  | nil => intro t; rfl
  | cons u ts ih =>
      intro t
      by_cases h : u = t
      · subst h; simp [aget]
      · simp [aget, h, ih, Ne.symm h]

theorem aget_initDict {α : Type} (v : α) (ts : List String) (h : ts.Nodup) (t : String) :
    aget (initDict v ts) t = if t ∈ ts then some v else none := by
  rw [initDict_eq_map v ts h, aget_map_const]

theorem akeys_map_const {α : Type} (v : α) : ∀ ts : List String,
    akeys (ts.map (fun t => (t, v))) = ts := by
  intro ts
  induction ts with
  | nil => rfl
  | cons t ts ih =>
      show (t, v).1 :: akeys (ts.map (fun t => (t, v))) = t :: ts
      rw [ih]

theorem akeys_initDict {α : Type} (v : α) (ts : List String) (h : ts.Nodup) :
    akeys (initDict v ts) = ts := by
  rw [initDict_eq_map v ts h, akeys_map_const]

/-! ### Claim C10 -/

/-- C10: `set_image_paths` called in its single-path form with an
`image_type` that is not a key of the raw-path dict — including the `None`
default — raises `KeyError` from the trailing log-message formatting; the
guarded helper `_set_image_path` leaves the raw-path state unchanged, so
the exception escapes to the caller with the device exactly as before. -/
theorem claim_C10 (d : Device) (it ip : Option String)
    (h : it = none ∨ ∃ t, it = some t ∧ t ∉ akeys d.image_paths) :
    d.set_image_paths it ip PathsArg.omitted = Except.error ("KeyError", d) := by
  rcases h with h | ⟨t, rfl, ht⟩
  · subst h
    cases ip <;> rfl
  · have hnone : aget d.image_paths t = none := aget_eq_none_of_not_mem d.image_paths ht
    cases ip with
    | none => simp [Device.set_image_paths, Device.set_image_paths_step,
        Device.set_image_paths_last, hnone]
    | some p =>
        by_cases htp : t ≠ "" ∧ p ≠ ""
        · simp [Device.set_image_paths, Device.set_image_paths_step,
            Device.set_image_paths_last, htp, Device.set_image_path, hnone]
        · simp [Device.set_image_paths, Device.set_image_paths_step,
            Device.set_image_paths_last, htp, hnone]

/-- Witness for C10 at a concrete input: a freshly constructed two-type
device and an unknown type name. -/
theorem claim_C10_witness :
    (some "C" = (none : Option String) ∨
      ∃ t, (some "C" : Option String) = some t ∧
        t ∉ akeys (Device.init ["A", "B"] (some "Device_1") (some "/r") false).image_paths) ∧
    (Device.init ["A", "B"] (some "Device_1") (some "/r") false).set_image_paths
        (some "C") (some "/r/x.tif") PathsArg.omitted =
      Except.error ("KeyError", Device.init ["A", "B"] (some "Device_1") (some "/r") false) :=
  ⟨Or.inr ⟨"C", rfl, by decide⟩,
   claim_C10 (Device.init ["A", "B"] (some "Device_1") (some "/r") false)
     (some "C") (some "/r/x.tif") (Or.inr ⟨"C", rfl, by decide⟩)⟩

/-! ### Claim C2 -/

/-- C2, counterexample: on a device whose type `A` holds `["/r/p.tif"]`,
reassigning the *absent* path `"/r/q.tif"` from `A` to `B` is not a no-op:
`B`'s slot changes from `None` to `["/r/q.tif"]` — the path is appended to
the new type even though it was never in the old type's list. -/
theorem claim_C2_cex :
    ("/r/q.tif" : String) ∉ ["/r/p.tif"] ∧
    aget devAB.image_paths "B" = some PathVal.null ∧
    aget (resState (devAB.update_image_type "/r/q.tif" "A" "B")).image_paths "B" =
      some (PathVal.list ["/r/q.tif"]) := by decide

/-- C2, amended: reassigning a path that is not in `oldType`'s (list-valued)
slot leaves `oldType`'s list unchanged and touches no other type's entry,
but it is not a no-op: the path is nevertheless appended to `newType`'s
list (created as `[]` first when the slot was absent or `None`), and the
call returns normally with the update logged. -/
theorem claim_C2 (d : Device) (p ot nt : String) (l : List String)
    (h1 : aget d.image_paths ot = some (PathVal.list l))
    (h2 : p ∉ l) (h3 : ot ≠ nt)
    (h5 : notStr (aget d.image_paths nt) = true) :
    ∃ d' lg, d.update_image_type p ot nt = Except.ok (d', lg) ∧
      aget d'.image_paths ot = some (PathVal.list l) ∧
      aget d'.image_paths nt = some (PathVal.list (pvList (aget d.image_paths nt) ++ [p])) ∧
      ∀ k, k ≠ nt → aget d'.image_paths k = aget d.image_paths k := by
  cases hnt : aget d.image_paths nt with
  | none =>
      have hrun : d.update_image_type p ot nt = Except.ok
          ({ d with image_paths := aset (aset d.image_paths nt (PathVal.list [])) nt (PathVal.list [p]) },
           [("INFO", "Updated image type for " ++ p ++ " from " ++ ot ++ " to " ++ nt ++ ".")]) := by
        simp [Device.update_image_type, Device.update_remove, Device.update_append, h1, h2, hnt, aget_aset_self]
      refine ⟨_, _, hrun, ?_, ?_, ?_⟩
      · simp only [aget_aset_ne _ _ h3, h1]
      · simp [pvList, aget_aset_self]
      · intro k hk
        simp only [aget_aset_ne _ _ hk]
  | some v =>
      cases v with
      | null =>
          have hrun : d.update_image_type p ot nt = Except.ok
              ({ d with image_paths := aset (aset d.image_paths nt (PathVal.list [])) nt (PathVal.list [p]) },
               [("INFO", "Updated image type for " ++ p ++ " from " ++ ot ++ " to " ++ nt ++ ".")]) := by
            simp [Device.update_image_type, Device.update_remove, Device.update_append, h1, h2, hnt, aget_aset_self]
          refine ⟨_, _, hrun, ?_, ?_, ?_⟩
          · simp only [aget_aset_ne _ _ h3, h1]
          · simp [pvList, aget_aset_self]
          · intro k hk
            simp only [aget_aset_ne _ _ hk]
      | str s => rw [hnt] at h5; simp [notStr] at h5
      | list m =>
          have hrun : d.update_image_type p ot nt = Except.ok
              ({ d with image_paths := aset d.image_paths nt (PathVal.list (m ++ [p])) },
               [("INFO", "Updated image type for " ++ p ++ " from " ++ ot ++ " to " ++ nt ++ ".")]) := by
            simp [Device.update_image_type, Device.update_remove, Device.update_append, h1, h2, hnt, aget_aset_self]
          refine ⟨_, _, hrun, ?_, ?_, ?_⟩
          · simp only [aget_aset_ne _ _ h3, h1]
          · simp [pvList, aget_aset_self]
          · intro k hk
            simp only [aget_aset_ne _ _ hk]

/-- Witness for the amended C2 at the concrete device `devAB`. -/
theorem claim_C2_witness :
    (aget devAB.image_paths "A" = some (PathVal.list ["/r/p.tif"]) ∧
     ("/r/q.tif" : String) ∉ ["/r/p.tif"] ∧ ("A" : String) ≠ "B" ∧
     notStr (aget devAB.image_paths "B") = true) ∧
    (∃ d' lg, devAB.update_image_type "/r/q.tif" "A" "B" = Except.ok (d', lg) ∧
      aget d'.image_paths "A" = some (PathVal.list ["/r/p.tif"]) ∧
      aget d'.image_paths "B" =
        some (PathVal.list (pvList (aget devAB.image_paths "B") ++ ["/r/q.tif"])) ∧
      ∀ k, k ≠ "B" → aget d'.image_paths k = aget devAB.image_paths k) :=
  ⟨⟨by decide, by decide, by decide, by decide⟩,
   claim_C2 devAB "/r/q.tif" "A" "B" ["/r/p.tif"]
     (by decide) (by decide) (by decide) (by decide)⟩

/-! ### Claim C3 -/

/-- C3, counterexample: in `devDup` the path `"/r/p.tif"` is present in type
`A`'s raw list (twice — a state reachable by calling `set_image_paths` with
the same path twice).  After `update_image_type("/r/p.tif", "A", "B")` the
path is still present in `A`'s list, because `list.remove` only removes the
first occurrence — contradicting the claimed postcondition `p ∉ rawPaths[A]`
(and hence "p appears in exactly one type's list"). -/
theorem claim_C3_cex :
    ("/r/p.tif" : String) ∈ pvList (aget devDup.image_paths "A") ∧
    ("A" : String) ≠ "B" ∧
    ("/r/p.tif" : String) ∈
      pvList (aget (resState (devDup.update_image_type "/r/p.tif" "A" "B")).image_paths "A") := by
  decide

/-- C3, amended: if `p` occurs exactly once in `oldType`'s list and in no
other type's slot, then reassigning with `newType ≠ oldType` (whose slot is
absent, `None`, or a list) removes `p` from `oldType`, appends it to the
end of `newType`'s list, and afterwards `p` lies in `newType`'s list and in
no other. -/
theorem claim_C3 (d : Device) (p ot nt : String) (l : List String)
    (h1 : aget d.image_paths ot = some (PathVal.list l))
    (h2 : l.count p = 1) (h3 : ot ≠ nt)
    (h4 : ∀ k, k ≠ ot → p ∉ pvList (aget d.image_paths k))
    (h5 : notStr (aget d.image_paths nt) = true) :
    ∃ d' lg, d.update_image_type p ot nt = Except.ok (d', lg) ∧
      p ∉ pvList (aget d'.image_paths ot) ∧
      aget d'.image_paths nt = some (PathVal.list (pvList (aget d.image_paths nt) ++ [p])) ∧
      (pvList (aget d'.image_paths nt)).getLast? = some p ∧
      ∀ k, k ≠ nt → p ∉ pvList (aget d'.image_paths k) := by
  have hp : p ∈ l := by
    have hpos : 0 < l.count p := by omega
    exact List.count_pos_iff.mp hpos
  have hno : p ∉ l.erase p := by
    have hz : (l.erase p).count p = 0 := by
      rw [List.count_erase_self, h2]
    exact List.count_eq_zero.mp hz
  have hwno : p ∉ pvList (some (if l.erase p = [] then PathVal.null else PathVal.list (l.erase p))) := by
    by_cases he : l.erase p = []
    · simp [he, pvList]
    · simp [he, pvList, hno]
  cases hnt : aget d.image_paths nt with
  | none =>
      have hrun : d.update_image_type p ot nt = Except.ok
          ({ d with image_paths := aset (aset (aset d.image_paths ot (if l.erase p = [] then PathVal.null else PathVal.list (l.erase p))) nt (PathVal.list [])) nt (PathVal.list [p]) },
           [("INFO", "Updated image type for " ++ p ++ " from " ++ ot ++ " to " ++ nt ++ ".")]) := by
        simp [Device.update_image_type, Device.update_remove, Device.update_append, h1, hp, hnt,
          aget_aset_self, aget_aset_ne _ _ (Ne.symm h3)]
      refine ⟨_, _, hrun, ?_, ?_, ?_, ?_⟩
      · simp only [aget_aset_ne _ _ h3, aget_aset_self]
        exact hwno
      · simp [pvList, aget_aset_self]
      · simp [pvList, aget_aset_self]
      · intro k hk
        simp only [aget_aset_ne _ _ hk]
        by_cases hko : k = ot
        · subst hko
          simp only [aget_aset_self]
          exact hwno
        · rw [aget_aset_ne _ _ hko]
          exact h4 k hko
  | some v =>
      cases v with
      | null =>
          have hrun : d.update_image_type p ot nt = Except.ok
              ({ d with image_paths := aset (aset (aset d.image_paths ot (if l.erase p = [] then PathVal.null else PathVal.list (l.erase p))) nt (PathVal.list [])) nt (PathVal.list [p]) },
               [("INFO", "Updated image type for " ++ p ++ " from " ++ ot ++ " to " ++ nt ++ ".")]) := by
            simp [Device.update_image_type, Device.update_remove, Device.update_append, h1, hp, hnt,
              aget_aset_self, aget_aset_ne _ _ (Ne.symm h3)]
          refine ⟨_, _, hrun, ?_, ?_, ?_, ?_⟩
          · simp only [aget_aset_ne _ _ h3, aget_aset_self]
            exact hwno
          · simp [pvList, aget_aset_self]
          · simp [pvList, aget_aset_self]
          · intro k hk
            simp only [aget_aset_ne _ _ hk]
            by_cases hko : k = ot
            · subst hko
              simp only [aget_aset_self]
              exact hwno
            · rw [aget_aset_ne _ _ hko]
              exact h4 k hko
      | str s => rw [hnt] at h5; simp [notStr] at h5
      | list m =>
          have hrun : d.update_image_type p ot nt = Except.ok
              ({ d with image_paths := aset (aset d.image_paths ot (if l.erase p = [] then PathVal.null else PathVal.list (l.erase p))) nt (PathVal.list (m ++ [p])) },
               [("INFO", "Updated image type for " ++ p ++ " from " ++ ot ++ " to " ++ nt ++ ".")]) := by
            simp [Device.update_image_type, Device.update_remove, Device.update_append, h1, hp, hnt,
              aget_aset_self, aget_aset_ne _ _ (Ne.symm h3)]
          refine ⟨_, _, hrun, ?_, ?_, ?_, ?_⟩
          · simp only [aget_aset_ne _ _ h3, aget_aset_self]
            exact hwno
          · simp [pvList, aget_aset_self]
          · simp [pvList, aget_aset_self]
          · intro k hk
            simp only [aget_aset_ne _ _ hk]
            by_cases hko : k = ot
            · subst hko
              simp only [aget_aset_self]
              exact hwno
            · rw [aget_aset_ne _ _ hko]
              exact h4 k hko

/-- Witness for the amended C3 at the concrete device `devAB`. -/
theorem claim_C3_witness :
    (aget devAB.image_paths "A" = some (PathVal.list ["/r/p.tif"]) ∧
     (["/r/p.tif"] : List String).count "/r/p.tif" = 1 ∧ ("A" : String) ≠ "B" ∧
     notStr (aget devAB.image_paths "B") = true) ∧
    (∃ d' lg, devAB.update_image_type "/r/p.tif" "A" "B" = Except.ok (d', lg) ∧
      ("/r/p.tif" : String) ∉ pvList (aget d'.image_paths "A") ∧
      aget d'.image_paths "B" =
        some (PathVal.list (pvList (aget devAB.image_paths "B") ++ ["/r/p.tif"])) ∧
      (pvList (aget d'.image_paths "B")).getLast? = some "/r/p.tif" ∧
      ∀ k, k ≠ "B" → ("/r/p.tif" : String) ∉ pvList (aget d'.image_paths k)) :=
  ⟨⟨by decide, by decide, by decide, by decide⟩,
   claim_C3 devAB "/r/p.tif" "A" "B" ["/r/p.tif"]
     (by decide) (by decide) (by decide)
     (by
       intro k hk
       have hA : ¬ ("A" : String) = k := fun h => hk h.symm
       by_cases hB : ("B" : String) = k
       · have hv : aget devAB.image_paths k = some PathVal.null := by
           simp [devAB, aget, hA, hB]
         simp [hv, pvList]
       · have hv : aget devAB.image_paths k = none := by
           simp [devAB, aget, hA, hB]
         simp [hv, pvList])
     (by decide)⟩

/-! ### Claim C1: key-set lemmas -/

theorem set_image_path_keys (d : Device) (t p : String) :
    akeys (resStateD (d.set_image_path t p)).image_paths = akeys d.image_paths := by
  cases hv : aget d.image_paths t with
  | none => simp [Device.set_image_path, hv, resStateD]
  | some v =>
      cases v with
      | null =>
          simp [Device.set_image_path, hv, resStateD,
            akeys_aset_mem _ _ (mem_of_aget_eq_some _ hv)]
      | str s => simp [Device.set_image_path, hv, resStateD]
      | list l =>
          simp [Device.set_image_path, hv, resStateD,
            akeys_aset_mem _ _ (mem_of_aget_eq_some _ hv)]

theorem from_dict_fold_keys : ∀ (m : List (String × String)) (dd : SDict PathVal),
    akeys (m.foldl (fun acc kv =>
      if kv.1 ∈ akeys acc then aset acc kv.1 (PathVal.str (abspath kv.2)) else acc) dd) =
    akeys dd := by
  intro m
  induction m with
  | nil => intro dd; rfl
  | cons kv m ih =>
      intro dd
      rw [List.foldl_cons]
      by_cases h : kv.1 ∈ akeys dd
      · rw [if_pos h, ih, akeys_aset_mem _ _ h]
      · rw [if_neg h, ih]

theorem resState_set_image_paths (d : Device) (it ip : Option String) (arg : PathsArg) :
    resState (d.set_image_paths it ip arg) = resStateD (d.set_image_paths_step it ip arg) := by
  cases hstep : d.set_image_paths_step it ip arg with
  | error e => simp [Device.set_image_paths, hstep, resState, resStateD]
  | ok d1 =>
      cases it with
      | none => simp [Device.set_image_paths, hstep, resState, resStateD]
      | some t =>
          cases hv : aget d1.image_paths t with
          | none => simp [Device.set_image_paths, hstep, hv, resState, resStateD]
          | some v => simp [Device.set_image_paths, hstep, hv, resState, resStateD]

theorem set_image_paths_last_keys (d : Device) (it ip : Option String) :
    akeys (resStateD (d.set_image_paths_last it ip)).image_paths = akeys d.image_paths := by
  cases it with
  | none => cases ip <;> simp [Device.set_image_paths_last, resStateD]
  | some t =>
      cases ip with
      | none => simp [Device.set_image_paths_last, resStateD]
      | some p =>
          by_cases h : t ≠ "" ∧ p ≠ ""
          · simp only [Device.set_image_paths_last, if_pos h]
            exact set_image_path_keys d t p
          · simp [Device.set_image_paths_last, h, resStateD]

theorem update_append_keys (d : Device) (p b : String) (hb : b ∈ akeys d.image_paths) :
    akeys (resStateD (d.update_append p b)).image_paths = akeys d.image_paths := by
  cases hv : aget d.image_paths b with
  | none =>
      have hs := aget_isSome_of_mem d.image_paths hb
      rw [hv] at hs
      simp at hs
  | some v =>
      cases v with
      | null =>
          have hk1 : akeys (aset d.image_paths b (PathVal.list [])) = akeys d.image_paths :=
            akeys_aset_mem _ _ hb
          have hb2 : b ∈ akeys (aset d.image_paths b (PathVal.list [])) := by
            rw [hk1]; exact hb
          have hk2 : akeys (aset (aset d.image_paths b (PathVal.list [])) b (PathVal.list [p])) =
              akeys (aset d.image_paths b (PathVal.list [])) := akeys_aset_mem _ _ hb2
          simp [Device.update_append, hv, aget_aset_self, resStateD, hk2, hk1]
      | str s => simp [Device.update_append, hv, resStateD]
      | list m =>
          have hk : akeys (aset d.image_paths b (PathVal.list (m ++ [p]))) = akeys d.image_paths :=
            akeys_aset_mem _ _ hb
          simp [Device.update_append, hv, resStateD, hk]

theorem update_append_keys_prefix (d : Device) (p b : String) :
    akeys d.image_paths <+: akeys (resStateD (d.update_append p b)).image_paths := by
  by_cases hb : b ∈ akeys d.image_paths
  · rw [update_append_keys d p b hb]
  · have hv : aget d.image_paths b = none := aget_eq_none_of_not_mem _ hb
    have hk1 : akeys (aset d.image_paths b (PathVal.list [])) = akeys d.image_paths ++ [b] :=
      akeys_aset_not_mem _ _ hb
    have hb2 : b ∈ akeys (aset d.image_paths b (PathVal.list [])) := by
      rw [hk1]; simp
    have hk2 : akeys (aset (aset d.image_paths b (PathVal.list [])) b (PathVal.list [p])) =
        akeys (aset d.image_paths b (PathVal.list [])) := akeys_aset_mem _ _ hb2
    simp [Device.update_append, hv, aget_aset_self, resStateD, hk2, hk1, List.prefix_append]

theorem update_remove_keys (d : Device) (p a : String) (v : PathVal)
    (hv : aget d.image_paths a = some v) :
    akeys (resStateD (d.update_remove p a v)).image_paths = akeys d.image_paths := by
  cases v with
  | null => simp [Device.update_remove, resStateD]
  | str s =>
      by_cases hc : strCon s p
      · simp [Device.update_remove, hc, resStateD]
      · simp [Device.update_remove, hc, resStateD]
  | list l =>
      by_cases hpl : p ∈ l
      · have ha' : a ∈ akeys d.image_paths := mem_of_aget_eq_some _ hv
        simp only [Device.update_remove, if_pos hpl, resStateD]
        exact akeys_aset_mem _ _ ha'
      · simp [Device.update_remove, hpl, resStateD]

theorem update_keys (d : Device) (p a b : String) (hb : b ∈ akeys d.image_paths) :
    akeys (resState (d.update_image_type p a b)).image_paths = akeys d.image_paths := by
  cases ha : aget d.image_paths a with
  | none => simp [Device.update_image_type, ha, resState]
  | some v =>
      have hrk := update_remove_keys d p a v ha
      cases hrem : d.update_remove p a v with
      | error e =>
          rw [hrem] at hrk; simp only [resStateD] at hrk
          simp [Device.update_image_type, ha, hrem, resState]
          exact hrk
      | ok d1 =>
          rw [hrem] at hrk; simp only [resStateD] at hrk
          have hb1 : b ∈ akeys d1.image_paths := by rw [hrk]; exact hb
          have hak := update_append_keys d1 p b hb1
          cases happ : d1.update_append p b with
          | error e =>
              rw [happ] at hak; simp only [resStateD] at hak
              simp [Device.update_image_type, ha, hrem, happ, resState]
              rw [hak, hrk]
          | ok d2 =>
              rw [happ] at hak; simp only [resStateD] at hak
              simp [Device.update_image_type, ha, hrem, happ, resState]
              rw [hak, hrk]

theorem update_keys_prefix (d : Device) (p a b : String) :
    akeys d.image_paths <+: akeys (resState (d.update_image_type p a b)).image_paths := by
  cases ha : aget d.image_paths a with
  | none => simp [Device.update_image_type, ha, resState]
  | some v =>
      have hrk := update_remove_keys d p a v ha
      cases hrem : d.update_remove p a v with
      | error e =>
          rw [hrem] at hrk; simp only [resStateD] at hrk
          simp [Device.update_image_type, ha, hrem, resState]
          rw [hrk]
      | ok d1 =>
          rw [hrem] at hrk; simp only [resStateD] at hrk
          have hap := update_append_keys_prefix d1 p b
          cases happ : d1.update_append p b with
          | error e =>
              rw [happ] at hap; simp only [resStateD] at hap
              simp [Device.update_image_type, ha, hrem, happ, resState]
              rw [← hrk]
              exact hap
          | ok d2 =>
              rw [happ] at hap; simp only [resStateD] at hap
              simp [Device.update_image_type, ha, hrem, happ, resState]
              rw [← hrk]
              exact hap

theorem set_colored_image_path_raw (d : Device) (t p : String) :
    (d.set_colored_image_path t p).1.image_paths = d.image_paths := by
  unfold Device.set_colored_image_path
  by_cases h : t ∈ akeys d.colored_image_paths <;> simp [h]

theorem apply_single_raw (d : Device) (ok : String → Bool) (t p : String) :
    (d.apply_color_to_single_image ok t p).1.image_paths = d.image_paths := by
  cases hdd : d.deviceDir with
  | none => simp [Device.apply_color_to_single_image, hdd]
  | some dd =>
      by_cases hok : ok p
      · simp [Device.apply_color_to_single_image, hdd, hok, set_colored_image_path_raw]
      · simp [Device.apply_color_to_single_image, hdd, hok]

theorem apply_fold_raw (ok : String → Bool) (t : String) :
    ∀ (paths : List String) (acc : Device × List LogCall),
    ((paths.foldl (fun acc p =>
        let r := Device.apply_color_to_single_image acc.1 ok t p
        (r.1, acc.2 ++ r.2)) acc).1).image_paths = acc.1.image_paths := by
  intro paths
  induction paths with
  | nil => intro acc; rfl
  | cons p ps ih =>
      intro acc
      rw [List.foldl_cons, ih]
      simp [apply_single_raw]

theorem apply_aux_raw (ok : String → Bool) : ∀ (ps : List (String × String)) (d : Device),
    (Device.apply_color_images_aux ok d ps).1.image_paths = d.image_paths := by
  intro ps
  induction ps with
  | nil => intro d; rfl
  | cons tc rest ih =>
      intro d
      rcases tc with ⟨t, c⟩
      cases hg : d.get_image_paths t with
      | val v =>
          by_cases htr : v.truthy = true
          · simp only [Device.apply_color_images_aux, hg, htr, if_true]
            rw [ih]
            exact apply_fold_raw ok t _ _
          · simp only [Device.apply_color_images_aux, hg, htr, if_false, Bool.false_eq_true]
            rw [ih]
      | dict m =>
          by_cases hme : m.isEmpty = true
          · simp only [Device.apply_color_images_aux, hg, hme, if_true]
            rw [ih]
          · simp only [Device.apply_color_images_aux, hg, hme, if_false, Bool.false_eq_true]
            rw [ih]

theorem apply_color_raw (d : Device) (tc : List String) (ok : String → Bool) :
    (d.apply_color_to_images tc ok).1.image_paths = d.image_paths :=
  apply_aux_raw ok _ d

/-- C1, counterexample: `devAB` (reachable from
`Device.init ["A","B"] …` by one `set_image_paths` call) has raw-path keys
exactly its configured `["A","B"]`; reassigning its image to the unknown
type `"C"` via `update_image_type` adds `"C"` as a fresh key — an operation
does extend the key set beyond the configured type set. -/
theorem claim_C1_cex :
    devAB.typeNames = ["A", "B"] ∧
    akeys devAB.image_paths = ["A", "B"] ∧
    akeys (resState (devAB.update_image_type "/r/p.tif" "A" "C")).image_paths =
      ["A", "B", "C"] := by decide

/-- C1, amended: the raw-path key set equals the configured `typeNames` at
construction and is preserved by every operation whose type arguments are
existing keys: `set_image_paths` in its single-path and dict forms always,
its list form and `update_image_type` whenever the written type is already
a key.  No operation ever removes a key (the old key list is always a
prefix of the new one), and colorization never touches `image_paths` at
all.  However `update_image_type` with a `new_type` outside the key set
(and the list form of `set_image_paths` with an unknown type) appends that
type as a fresh key. -/
theorem claim_C1 :
    (∀ (ts : List String) (n dd : Option String) (vb : Bool), ts.Nodup →
        akeys (Device.init ts n dd vb).image_paths = ts ∧
        akeys (Device.init ts n dd vb).colored_image_paths = ts) ∧
    (∀ (d : Device) (it ip : Option String),
        akeys (resState (d.set_image_paths it ip PathsArg.omitted)).image_paths =
          akeys d.image_paths) ∧
    (∀ (d : Device) (it ip : Option String) (m : List (String × String)),
        akeys (resState (d.set_image_paths it ip (PathsArg.dict m))).image_paths =
          akeys d.image_paths) ∧
    (∀ (d : Device) (t : String) (ip : Option String) (l : List String),
        t ∈ akeys d.image_paths →
        akeys (resState (d.set_image_paths (some t) ip (PathsArg.list l))).image_paths =
          akeys d.image_paths) ∧
    (∀ (d : Device) (p a b : String), b ∈ akeys d.image_paths →
        akeys (resState (d.update_image_type p a b)).image_paths = akeys d.image_paths) ∧
    (∀ (d : Device) (p a b : String),
        akeys d.image_paths <+: akeys (resState (d.update_image_type p a b)).image_paths) ∧
    (∀ (d : Device) (t p : String),
        (d.set_colored_image_path t p).1.image_paths = d.image_paths) ∧
    (∀ (d : Device) (tc : List String) (ok : String → Bool),
        (d.apply_color_to_images tc ok).1.image_paths = d.image_paths) := by
  refine ⟨?_, ?_, ?_, ?_, ?_, ?_, ?_, ?_⟩
  · intro ts n dd vb hnd
    exact ⟨akeys_initDict _ ts hnd, akeys_initDict _ ts hnd⟩
  · intro d it ip
    rw [resState_set_image_paths]
    cases it with
    | none => cases ip <;> simp [Device.set_image_paths_step, set_image_paths_last_keys]
    | some t => cases ip <;> simp [Device.set_image_paths_step, set_image_paths_last_keys]
  · intro d it ip m
    rw [resState_set_image_paths]
    cases m with
    | nil =>
        cases it with
        | none => cases ip <;> simp [Device.set_image_paths_step, set_image_paths_last_keys]
        | some t => cases ip <;> simp [Device.set_image_paths_step, set_image_paths_last_keys]
    | cons kv m =>
        simp only [Device.set_image_paths_step, Device.set_image_paths_from_dict, resStateD]
        exact from_dict_fold_keys (kv :: m) d.image_paths
  · intro d t ip l ht
    rw [resState_set_image_paths]
    cases l with
    | nil => simp [Device.set_image_paths_step, set_image_paths_last_keys]
    | cons x xs =>
        by_cases hte : t ≠ ""
        · simp [Device.set_image_paths_step, hte, Device.set_image_paths_from_list, resStateD,
            akeys_aset_mem _ _ ht]
        · simp [Device.set_image_paths_step, hte, set_image_paths_last_keys]
  · intro d p a b hb
    exact update_keys d p a b hb
  · intro d p a b
    exact update_keys_prefix d p a b
  · intro d t p
    exact set_colored_image_path_raw d t p
  · intro d tc ok
    exact apply_color_raw d tc ok

/-- Witness for the amended C1 at concrete inputs. -/
theorem claim_C1_witness :
    ((["A", "B"] : List String).Nodup ∧
      akeys (Device.init ["A", "B"] (some "Device_1") (some "/r") false).image_paths = ["A", "B"]) ∧
    (("B" : String) ∈ akeys devAB.image_paths ∧
      akeys (resState (devAB.update_image_type "/r/p.tif" "A" "B")).image_paths =
        akeys devAB.image_paths) :=
  ⟨⟨by decide, (claim_C1.1 ["A", "B"] (some "Device_1") (some "/r") false (by decide)).1⟩,
   ⟨by decide, claim_C1.2.2.2.2.1 devAB "/r/p.tif" "A" "B" (by decide)⟩⟩

/-! ### Claim C8: merge dimension harmonization -/

theorem foldl_min_le_init (f : DImage → Nat) : ∀ (rest : List DImage) (a : Nat),
    rest.foldl (fun a i => min a (f i)) a ≤ a := by
  intro rest
  induction rest with
  | nil => intro a; exact le_refl a
  | cons j rest ih =>
      intro a
      rw [List.foldl_cons]
      exact le_trans (ih (min a (f j))) (min_le_left _ _)

theorem foldl_min_le (f : DImage → Nat) : ∀ (rest : List DImage) (a : Nat),
    ∀ i ∈ rest, rest.foldl (fun a i => min a (f i)) a ≤ f i := by
  intro rest
  induction rest with
  | nil => intro a i hi; simp at hi
  | cons j rest ih =>
      intro a i hi
      rw [List.foldl_cons]
      rcases List.mem_cons.mp hi with h | h
      · subst h
        exact le_trans (foldl_min_le_init f rest (min a (f i))) (min_le_right _ _)
      · exact ih (min a (f j)) i h

theorem foldl_min_attained (f : DImage → Nat) : ∀ (rest : List DImage) (a : Nat),
    rest.foldl (fun a i => min a (f i)) a = a ∨
      ∃ i ∈ rest, rest.foldl (fun a i => min a (f i)) a = f i := by
  intro rest
  induction rest with
  | nil => intro a; exact Or.inl rfl
  | cons j rest ih =>
      intro a
      rw [List.foldl_cons]
      rcases ih (min a (f j)) with h | ⟨i, hi, h⟩
      · rcases le_total a (f j) with hle | hle
        · exact Or.inl (h.trans (min_eq_left hle))
        · exact Or.inr ⟨j, List.mem_cons_self j rest, h.trans (min_eq_right hle)⟩
      · exact Or.inr ⟨i, List.mem_cons_of_mem j hi, h⟩

theorem listMinBy_le (f : DImage → Nat) (i0 : DImage) (rest : List DImage) :
    ∀ i ∈ i0 :: rest, listMinBy f i0 rest ≤ f i := by
  intro i hi
  rcases List.mem_cons.mp hi with h | h
  · subst h
    exact foldl_min_le_init f rest (f i)
  · exact foldl_min_le f rest (f i0) i h

theorem listMinBy_attained (f : DImage → Nat) (i0 : DImage) (rest : List DImage) :
    ∃ i ∈ i0 :: rest, f i = listMinBy f i0 rest := by
  rcases foldl_min_attained f rest (f i0) with h | ⟨i, hi, h⟩
  · exact ⟨i0, List.mem_cons_self i0 rest, h.symm⟩
  · exact ⟨i, List.mem_cons_of_mem i0 hi, h.symm⟩

/-- C8: when a nonempty image collection does not share identical
dimensions, `_merge_images` first crops every image to the top-left-aligned
`minWidth × minHeight` region — width and height of every cropped image are
the minima over the collection, and the pixel function is preserved (the
ROI starts at `(0, 0)`) — and the stack is then built at exactly those
dimensions.  In particular sizes 100×100, 100×100, 80×120 give a working
canvas of 80×100. -/
theorem claim_C8 :
    (∀ (i0 : DImage) (rest : List DImage),
      ((i0 :: rest).all (fun i => i.width == i0.width && i.height == i0.height)) = false →
      ∃ cropped merged,
        Device.crop_to_smallest_dimensions (i0 :: rest) = Except.ok cropped ∧
        Device.merge_images_core (i0 :: rest) = Except.ok merged ∧
        cropped.length = (i0 :: rest).length ∧
        (∀ (j : Nat) (hj : j < cropped.length) (hj2 : j < (i0 :: rest).length),
            (cropped.get ⟨j, hj⟩).width = listMinBy (fun i => i.width) i0 rest ∧
            (cropped.get ⟨j, hj⟩).height = listMinBy (fun i => i.height) i0 rest ∧
            (cropped.get ⟨j, hj⟩).pix = ((i0 :: rest).get ⟨j, hj2⟩).pix) ∧
        (∀ i ∈ i0 :: rest, listMinBy (fun i => i.width) i0 rest ≤ i.width) ∧
        (∃ i ∈ i0 :: rest, i.width = listMinBy (fun i => i.width) i0 rest) ∧
        (∀ i ∈ i0 :: rest, listMinBy (fun i => i.height) i0 rest ≤ i.height) ∧
        (∃ i ∈ i0 :: rest, i.height = listMinBy (fun i => i.height) i0 rest) ∧
        merged.width = listMinBy (fun i => i.width) i0 rest ∧
        merged.height = listMinBy (fun i => i.height) i0 rest) ∧
    (∃ merged, Device.merge_images_core [img100a, img100b, img80x120] = Except.ok merged ∧
      merged.width = 80 ∧ merged.height = 100) := by
  constructor
  · intro i0 rest hdiff
    have hm : ∃ merged, Device.merge_images_core (i0 :: rest) = Except.ok merged ∧
        merged.width = listMinBy (fun i => i.width) i0 rest ∧
        merged.height = listMinBy (fun i => i.height) i0 rest := by
      simp only [Device.merge_images_core, hdiff, Bool.false_eq_true, if_false,
        Device.crop_to_smallest_dimensions, List.map_cons]
      exact ⟨_, rfl, rfl, rfl⟩
    rcases hm with ⟨merged, hme, hmw, hmh⟩
    refine ⟨_, merged, rfl, hme, ?_, ?_, ?_, ?_, ?_, ?_, hmw, hmh⟩
    · simp
    · intro j hj hj2
      simp only [← List.map_cons, List.get_eq_getElem, List.getElem_map]
      exact ⟨trivial, trivial, trivial⟩
    · exact listMinBy_le _ i0 rest
    · exact listMinBy_attained (fun i => i.width) i0 rest
    · exact listMinBy_le _ i0 rest
    · exact listMinBy_attained (fun i => i.height) i0 rest
  · exact ⟨_, rfl, rfl, rfl⟩

/-- Witness for C8's universal part at the concrete 100×100, 100×100,
80×120 collection. -/
theorem claim_C8_witness :
    (([img100a, img100b, img80x120] :
        List DImage).all (fun i => i.width == img100a.width && i.height == img100a.height)) = false ∧
    (∃ cropped merged,
        Device.crop_to_smallest_dimensions [img100a, img100b, img80x120] = Except.ok cropped ∧
        Device.merge_images_core [img100a, img100b, img80x120] = Except.ok merged ∧
        cropped.length = ([img100a, img100b, img80x120] : List DImage).length ∧
        (∀ (j : Nat) (hj : j < cropped.length)
            (hj2 : j < ([img100a, img100b, img80x120] : List DImage).length),
            (cropped.get ⟨j, hj⟩).width = listMinBy (fun i => i.width) img100a [img100b, img80x120] ∧
            (cropped.get ⟨j, hj⟩).height = listMinBy (fun i => i.height) img100a [img100b, img80x120] ∧
            (cropped.get ⟨j, hj⟩).pix =
              (([img100a, img100b, img80x120] : List DImage).get ⟨j, hj2⟩).pix) ∧
        (∀ i ∈ ([img100a, img100b, img80x120] : List DImage),
            listMinBy (fun i => i.width) img100a [img100b, img80x120] ≤ i.width) ∧
        (∃ i ∈ ([img100a, img100b, img80x120] : List DImage),
            i.width = listMinBy (fun i => i.width) img100a [img100b, img80x120]) ∧
        (∀ i ∈ ([img100a, img100b, img80x120] : List DImage),
            listMinBy (fun i => i.height) img100a [img100b, img80x120] ≤ i.height) ∧
        (∃ i ∈ ([img100a, img100b, img80x120] : List DImage),
            i.height = listMinBy (fun i => i.height) img100a [img100b, img80x120]) ∧
        merged.width = listMinBy (fun i => i.width) img100a [img100b, img80x120] ∧
        merged.height = listMinBy (fun i => i.height) img100a [img100b, img80x120]) :=
  ⟨by rfl, claim_C8.1 img100a [img100b, img80x120] (by rfl)⟩

/-! ### Field preservation of the raw-path operations -/

theorem sameMeta_refl (d : Device) : sameMeta d d := ⟨rfl, rfl, rfl, rfl, rfl⟩

theorem sameMeta_trans {d2 d1 d0 : Device} (h2 : sameMeta d2 d1) (h1 : sameMeta d1 d0) :
    sameMeta d2 d0 :=
  ⟨h2.1.trans h1.1, h2.2.1.trans h1.2.1, h2.2.2.1.trans h1.2.2.1,
   h2.2.2.2.1.trans h1.2.2.2.1, h2.2.2.2.2.trans h1.2.2.2.2⟩

theorem set_image_path_meta (d : Device) (t p : String) :
    sameMeta (resStateD (d.set_image_path t p)) d := by
  cases hv : aget d.image_paths t with
  | none => simp [Device.set_image_path, hv, resStateD, sameMeta]
  | some v => cases v <;> simp [Device.set_image_path, hv, resStateD, sameMeta]

theorem set_image_paths_last_meta (d : Device) (it ip : Option String) :
    sameMeta (resStateD (d.set_image_paths_last it ip)) d := by
  cases it with
  | none => cases ip <;> exact sameMeta_refl d
  | some t =>
      cases ip with
      | none => exact sameMeta_refl d
      | some p =>
          by_cases h : t ≠ "" ∧ p ≠ ""
          · simp only [Device.set_image_paths_last, if_pos h]
            exact set_image_path_meta d t p
          · simp only [Device.set_image_paths_last, if_neg h]
            exact sameMeta_refl d

theorem set_image_paths_step_meta (d : Device) (it ip : Option String) (arg : PathsArg) :
    sameMeta (resStateD (d.set_image_paths_step it ip arg)) d := by
  cases arg with
  | omitted =>
      cases it with
      | none => simp only [Device.set_image_paths_step]; exact set_image_paths_last_meta d none ip
      | some t => simp only [Device.set_image_paths_step]; exact set_image_paths_last_meta d (some t) ip
  | dict m =>
      cases m with
      | nil =>
          cases it with
          | none => simp only [Device.set_image_paths_step]; exact set_image_paths_last_meta d none ip
          | some t => simp only [Device.set_image_paths_step]; exact set_image_paths_last_meta d (some t) ip
      | cons kv m =>
          simp [Device.set_image_paths_step, Device.set_image_paths_from_dict, resStateD, sameMeta]
  | list l =>
      cases l with
      | nil =>
          cases it with
          | none => simp only [Device.set_image_paths_step]; exact set_image_paths_last_meta d none ip
          | some t => simp only [Device.set_image_paths_step]; exact set_image_paths_last_meta d (some t) ip
      | cons x xs =>
          cases it with
          | none => exact set_image_paths_last_meta d none ip
          | some t =>
              by_cases hte : t ≠ ""
              · simp [Device.set_image_paths_step, hte, Device.set_image_paths_from_list,
                  resStateD, sameMeta]
              · simp only [Device.set_image_paths_step, if_neg hte]
                exact set_image_paths_last_meta d (some t) ip

theorem set_image_paths_meta (d : Device) (it ip : Option String) (arg : PathsArg) :
    sameMeta (resState (d.set_image_paths it ip arg)) d := by
  rw [resState_set_image_paths]
  exact set_image_paths_step_meta d it ip arg

theorem set_image_paths_ok_meta {d d1 : Device} {it ip : Option String} {arg : PathsArg}
    {lg : List LogCall} (h : d.set_image_paths it ip arg = Except.ok (d1, lg)) :
    sameMeta d1 d := by
  have hm := set_image_paths_meta d it ip arg
  rw [h] at hm
  simpa [resState] using hm

theorem assign_types_ok_meta (image_files : List String) (numTypes devIdx : Nat) :
    ∀ (ps : List (Nat × String)) (d d2 : Device) (lg : List LogCall),
    DeviceManager.assign_types image_files numTypes devIdx d ps = Except.ok (d2, lg) →
    sameMeta d2 d := by
  intro ps
  induction ps with
  | nil =>
      intro d d2 lg h
      simp [DeviceManager.assign_types] at h
      rw [← h.1]
      exact sameMeta_refl d
  | cons q rest ih =>
      intro d d2 lg h
      rcases q with ⟨tIdx, t⟩
      by_cases hidx : devIdx * numTypes + tIdx < image_files.length
      · rw [DeviceManager.assign_types, if_pos hidx] at h
        cases hset : d.set_image_paths (some t)
            (some (image_files.getD (devIdx * numTypes + tIdx) "")) PathsArg.omitted with
        | error e => rw [hset] at h; simp at h
        | ok r =>
            rcases r with ⟨d1, lg1⟩
            simp only [hset] at h
            cases hrec : DeviceManager.assign_types image_files numTypes devIdx d1 rest with
            | error e => simp only [hrec] at h; simp at h
            | ok r2 =>
                rcases r2 with ⟨d3, lg3⟩
                simp only [hrec] at h
                simp at h
                rw [← h.1]
                exact sameMeta_trans (ih d1 d3 lg3 hrec) (set_image_paths_ok_meta hset)
      · rw [DeviceManager.assign_types, if_neg hidx] at h
        exact ih d d2 lg h

/-! ### Claim C9: merge with no colored paths -/

theorem aget_eq_some_mem {α : Type} : ∀ (d : SDict α) {k : String} {v : α},
    aget d k = some v → (k, v) ∈ d := by
  intro d
  induction d with
  | nil => intro k v h; simp [aget] at h
  | cons kv d ih =>
      intro k v h
      by_cases hk : kv.1 = k
      · rw [aget, if_pos hk] at h
        have hv : kv.2 = v := Option.some.inj h
        have : (k, v) = kv := by
          rcases kv with ⟨a, b⟩
          simp at hk hv
          rw [hk, hv]
        rw [this]
        exact List.mem_cons_self kv d
      · rw [aget, if_neg hk] at h
        exact List.mem_cons_of_mem kv (ih h)

theorem mem_aset {α : Type} : ∀ (d : SDict α) (k : String) (v : α) (kv : String × α),
    kv ∈ aset d k v → kv = (k, v) ∨ kv ∈ d := by
  intro d
  induction d with
  | nil => intro k v kv h; simp [aset] at h; exact Or.inl h
  | cons kv0 d ih =>
      intro k v kv h
      by_cases hk : kv0.1 = k
      · rw [aset, if_pos hk] at h
        rcases List.mem_cons.mp h with h1 | h1
        · exact Or.inl h1
        · exact Or.inr (List.mem_cons_of_mem kv0 h1)
      · rw [aset, if_neg hk] at h
        rcases List.mem_cons.mp h with h1 | h1
        · exact Or.inr (h1 ▸ List.mem_cons_self kv0 d)
        · rcases ih k v kv h1 with h2 | h2
          · exact Or.inl h2
          · exact Or.inr (List.mem_cons_of_mem kv0 h2)

theorem initDict_values {α : Type} (v : α) (ts : List String) :
    ∀ kv ∈ initDict v ts, kv.2 = v := by
  unfold initDict
  have aux : ∀ (ts : List String) (dd : SDict α), (∀ kv ∈ dd, kv.2 = v) →
      ∀ kv ∈ ts.foldl (fun d t => aset d t v) dd, kv.2 = v := by
    intro ts
    induction ts with
    | nil => intro dd h kv hkv; exact h kv hkv
    | cons t ts ih =>
        intro dd h kv hkv
        rw [List.foldl_cons] at hkv
        refine ih (aset dd t v) ?_ kv hkv
        intro kv2 hkv2
        rcases mem_aset dd t v kv2 hkv2 with h2 | h2
        · rw [h2]
        · exact h kv2 h2
  exact aux ts [] (by intro kv hkv; simp at hkv)

theorem get_colored_none_of_values (d : Device)
    (h : ∀ kv ∈ d.colored_image_paths, kv.2 = none) :
    ∀ t, t ≠ "" → d.get_colored t = GetColoredResult.val none := by
  intro t ht
  unfold Device.get_colored
  rw [if_pos ht]
  cases hv : aget d.colored_image_paths t with
  | none => rfl
  | some v =>
      have hvn : v = none := h (t, v) (aget_eq_some_mem _ hv)
      rw [hvn]
      rfl

theorem collect_colored_eq_nil (d : Device)
    (h : ∀ t ∈ d.typeNames, d.get_colored t = GetColoredResult.val none) :
    d.collect_colored = [] := by
  unfold Device.collect_colored
  have aux : ∀ (ts : List String),
      (∀ t ∈ ts, d.get_colored t = GetColoredResult.val none) →
      ∀ (acc : List ColoredItem),
      ts.foldl (fun acc t =>
        acc ++ (match d.get_colored t with
                | GetColoredResult.val (some p) =>
                    if p ≠ "" then [ColoredItem.path p] else []
                | GetColoredResult.val none => []
                | GetColoredResult.dict m =>
                    if m.isEmpty then [] else [ColoredItem.dict m])) acc = acc := by
    intro ts
    induction ts with
    | nil => intro _ acc; rfl
    | cons t ts ih =>
        intro hh acc
        rw [List.foldl_cons, hh t (List.mem_cons_self t ts)]
        simpa using ih (fun u hu => hh u (List.mem_cons_of_mem t hu)) acc
  exact aux d.typeNames h []

/-- The skip path of `Device.merge_images`: with no colored paths collected
the merge is skipped, the skip reason is logged, nothing is written, the
device is unchanged, and — the whole body being a total function — no
error reaches the caller. -/
theorem merge_images_skip (d : Device) (load : String → Option DImage)
    (h : d.collect_colored = []) :
    d.merge_images load =
      (d, [("INFO", "No colored images found to merge for device: " ++ renderName d.name)],
       none) := by
  simp [Device.merge_images, h]

theorem process_device_skip (opts : Options) (typeColors : List String)
    (ok : String → Bool) (load : String → Option DImage)
    (confirmStage : Device → Except (String × Device) Device) (d : Device)
    (hconf : opts.confirm_image_types = false) (hcol : opts.color = false)
    (hmerge : opts.merge = true) (hempty : d.collect_colored = []) :
    DeviceManager.process_device opts typeColors ok load confirmStage d =
      Except.ok (d,
        [("INFO", "Merging images for device: " ++ renderName d.name),
         ("INFO", "No colored images found to merge for device: " ++ renderName d.name)],
        []) := by
  simp [DeviceManager.process_device, hconf, hcol, hmerge, merge_images_skip d load hempty]

theorem build_device_colored (typeNames : List String) (numTypes : Nat) (verbose : Bool)
    (image_files : List String) (devIdx : Nat) (d : Device) (lg : List LogCall)
    (h : DeviceManager.build_device typeNames numTypes verbose image_files devIdx =
      Except.ok (d, lg)) :
    d.colored_image_paths = initDict Option.none typeNames ∧ d.typeNames = typeNames := by
  unfold DeviceManager.build_device at h
  cases hassign : DeviceManager.assign_types image_files numTypes devIdx
      (Device.init typeNames (some ("Device_" ++ toString (devIdx + 1)))
        (some (dirname (image_files.getD (devIdx * numTypes) ""))) verbose)
      typeNames.enum with
  | error e => simp only [hassign] at h; simp at h
  | ok r =>
      rcases r with ⟨d1, lg1⟩
      simp only [hassign] at h
      simp at h
      have hm := assign_types_ok_meta image_files numTypes devIdx typeNames.enum _ d1 lg1 hassign
      rw [← h.1]
      exact ⟨hm.2.2.2.2, hm.2.1⟩

theorem build_devices_colored (typeNames : List String) (numTypes : Nat) (verbose : Bool)
    (image_files : List String) :
    ∀ (ks : List Nat) (ds : List Device) (lg : List LogCall),
    DeviceManager.build_devices typeNames numTypes verbose image_files ks =
      Except.ok (ds, lg) →
    ∀ d ∈ ds, d.colored_image_paths = initDict Option.none typeNames ∧
      d.typeNames = typeNames := by
  intro ks
  induction ks with
  | nil =>
      intro ds lg h d hd
      simp [DeviceManager.build_devices] at h
      rw [h.1] at hd
      simp at hd
  | cons k ks ih =>
      intro ds lg h d hd
      rw [DeviceManager.build_devices] at h
      cases hbd : DeviceManager.build_device typeNames numTypes verbose image_files k with
      | error e => simp only [hbd] at h; simp at h
      | ok r =>
          rcases r with ⟨d0, lg0⟩
          simp only [hbd] at h
          cases hrest : DeviceManager.build_devices typeNames numTypes verbose image_files ks with
          | error e => simp only [hrest] at h; simp at h
          | ok r2 =>
              rcases r2 with ⟨ds1, lg1⟩
              simp only [hrest] at h
              simp at h
              rw [← h.1] at hd
              rcases List.mem_cons.mp hd with h1 | h1
              · rw [h1]
                exact build_device_colored typeNames numTypes verbose image_files k d0 lg0 hbd
              · exact ih ds1 lg1 hrest d h1

/-- C9: a device whose collected colored paths are empty has its merge
skipped with a logged reason, no error reported to the caller, no output
written, and its state unchanged; `get_colored_image_paths` returning
`None` for every configured (truthy-named) type makes the collection
empty; in particular colorization disabled with merge enabled gives, for
every grouped device built by the directory walk under nonempty configured
type names (whose colored slots are then all unset), a per-device skip —
devices pass through unchanged and the run does not fail. -/
theorem claim_C9 :
    (∀ (d : Device) (load : String → Option DImage),
      d.collect_colored = [] →
      d.merge_images load =
        (d, [("INFO", "No colored images found to merge for device: " ++ renderName d.name)],
         none)) ∧
    (∀ d : Device,
      (∀ t ∈ d.typeNames, d.get_colored t = GetColoredResult.val none) →
      d.collect_colored = []) ∧
    (∀ (opts : Options) (typeColors : List String) (ok : String → Bool)
        (load : String → Option DImage)
        (confirmStage : Device → Except (String × Device) Device) (ds : List Device),
      opts.confirm_image_types = false → opts.color = false → opts.merge = true →
      (∀ d ∈ ds, d.collect_colored = []) →
      DeviceManager.process_devices opts typeColors ok load confirmStage ds =
        Except.ok (ds,
          (ds.map (fun d =>
            [("INFO", "Merging images for device: " ++ renderName d.name),
             ("INFO", "No colored images found to merge for device: " ++ renderName d.name)])).flatten,
          [])) ∧
    (∀ (typeNames : List String) (numTypes : Nat) (verbose : Bool) (image_files : List String)
        (ds : List Device) (lg : List LogCall),
      (∀ t ∈ typeNames, t ≠ "") →
      DeviceManager.walk_directory_and_add_images typeNames numTypes verbose image_files =
        Except.ok (ds, lg) →
      ∀ d ∈ ds, d.collect_colored = []) := by
  refine ⟨merge_images_skip, collect_colored_eq_nil, ?_, ?_⟩
  · intro opts typeColors ok load confirmStage ds hconf hcol hmerge hempty
    induction ds with
    | nil => simp [DeviceManager.process_devices]
    | cons d ds ih =>
        rw [DeviceManager.process_devices]
        rw [process_device_skip opts typeColors ok load confirmStage d hconf hcol hmerge
          (hempty d (List.mem_cons_self d ds))]
        rw [ih (fun d2 hd2 => hempty d2 (List.mem_cons_of_mem d hd2))]
        simp
  · intro typeNames numTypes verbose image_files ds lg hts hwalk d hd
    apply collect_colored_eq_nil
    have hcolored : d.colored_image_paths = initDict Option.none typeNames ∧
        d.typeNames = typeNames := by
      unfold DeviceManager.walk_directory_and_add_images at hwalk
      by_cases h0 : numTypes = 0
      · simp [h0] at hwalk
      · rw [if_neg h0] at hwalk
        by_cases hmod : image_files.length % numTypes ≠ 0
        · rw [if_pos hmod] at hwalk
          simp at hwalk
          rw [hwalk.1] at hd
          simp at hd
        · rw [if_neg hmod] at hwalk
          cases hbuild : DeviceManager.build_devices typeNames numTypes verbose image_files
              (List.range (image_files.length / numTypes)) with
          | error e => simp only [hbuild] at hwalk; simp at hwalk
          | ok r =>
              rcases r with ⟨ds0, lg0⟩
              simp only [hbuild] at hwalk
              simp at hwalk
              rw [← hwalk.1] at hd
              exact build_devices_colored typeNames numTypes verbose image_files _ ds0 lg0
                hbuild d hd
    intro t ht
    rw [hcolored.2] at ht
    apply get_colored_none_of_values d ?_ t (hts t ht)
    intro kv hkv
    rw [hcolored.1] at hkv
    exact initDict_values _ _ kv hkv

/-- Witness for C9 at the concrete device `devAB` (no colored slot set). -/
theorem claim_C9_witness :
    (devAB.collect_colored = [] ∧
     devAB.merge_images (fun _ => none) =
       (devAB,
        [("INFO", "No colored images found to merge for device: " ++ renderName devAB.name)],
        none)) ∧
    DeviceManager.process_devices ⟨false, false, true⟩ [] (fun _ => true) (fun _ => none)
        Except.ok [devAB] =
      Except.ok ([devAB],
        (([devAB] : List Device).map (fun d =>
          [("INFO", "Merging images for device: " ++ renderName d.name),
           ("INFO", "No colored images found to merge for device: " ++ renderName d.name)])).flatten,
        []) :=
  ⟨⟨by decide, claim_C9.1 devAB (fun _ => none) (by decide)⟩,
   claim_C9.2.2.1 ⟨false, false, true⟩ [] (fun _ => true) (fun _ => none) Except.ok [devAB]
     rfl rfl rfl
     (by
       intro d hd
       rw [List.mem_singleton] at hd
       subst hd
       decide)⟩

/-! ### Claim C7: last-write-wins colored slots -/

theorem apply_single_pres (d : Device) (ok : String → Bool) (t p : String) :
    (d.apply_color_to_single_image ok t p).1.deviceDir = d.deviceDir ∧
    (d.apply_color_to_single_image ok t p).1.typeNames = d.typeNames ∧
    (d.apply_color_to_single_image ok t p).1.image_paths = d.image_paths ∧
    akeys (d.apply_color_to_single_image ok t p).1.colored_image_paths =
      akeys d.colored_image_paths := by
  cases hdd : d.deviceDir with
  | none => simp [Device.apply_color_to_single_image, hdd]
  | some dd =>
      by_cases hok : ok p
      · by_cases hmem : t ∈ akeys d.colored_image_paths
        · simp [Device.apply_color_to_single_image, hdd, hok, Device.set_colored_image_path,
            hmem, akeys_aset_mem _ _ hmem]
        · simp [Device.apply_color_to_single_image, hdd, hok, Device.set_colored_image_path, hmem]
      · simp [Device.apply_color_to_single_image, hdd, hok]

theorem apply_single_colored_self (d : Device) (ok : String → Bool) (t p : String) (dd : String)
    (hok : ok p = true) (hdd : d.deviceDir = some dd) (hmem : t ∈ akeys d.colored_image_paths) :
    aget (d.apply_color_to_single_image ok t p).1.colored_image_paths t =
      some (some (coloredOutputPath dd p)) := by
  simp [Device.apply_color_to_single_image, hdd, hok, Device.set_colored_image_path, hmem,
    aget_aset_self, abspath]

theorem apply_single_colored_other (d : Device) (ok : String → Bool) (t p k : String)
    (hk : k ≠ t) :
    aget (d.apply_color_to_single_image ok t p).1.colored_image_paths k =
      aget d.colored_image_paths k := by
  cases hdd : d.deviceDir with
  | none => simp [Device.apply_color_to_single_image, hdd]
  | some dd =>
      by_cases hok : ok p
      · by_cases hmem : t ∈ akeys d.colored_image_paths
        · simp [Device.apply_color_to_single_image, hdd, hok, Device.set_colored_image_path,
            hmem, aget_aset_ne _ _ hk]
        · simp [Device.apply_color_to_single_image, hdd, hok, Device.set_colored_image_path, hmem]
      · simp [Device.apply_color_to_single_image, hdd, hok]

theorem apply_fold_pres (ok : String → Bool) (t : String) :
    ∀ (paths : List String) (acc : Device × List LogCall),
    ((paths.foldl (fun acc p =>
        let r := Device.apply_color_to_single_image acc.1 ok t p
        (r.1, acc.2 ++ r.2)) acc).1).deviceDir = acc.1.deviceDir ∧
    ((paths.foldl (fun acc p =>
        let r := Device.apply_color_to_single_image acc.1 ok t p
        (r.1, acc.2 ++ r.2)) acc).1).typeNames = acc.1.typeNames ∧
    ((paths.foldl (fun acc p =>
        let r := Device.apply_color_to_single_image acc.1 ok t p
        (r.1, acc.2 ++ r.2)) acc).1).image_paths = acc.1.image_paths ∧
    akeys ((paths.foldl (fun acc p =>
        let r := Device.apply_color_to_single_image acc.1 ok t p
        (r.1, acc.2 ++ r.2)) acc).1).colored_image_paths = akeys acc.1.colored_image_paths := by
  intro paths
  induction paths with
  | nil => intro acc; exact ⟨rfl, rfl, rfl, rfl⟩
  | cons p ps ih =>
      intro acc
      rw [List.foldl_cons]
      refine ⟨?_, ?_, ?_, ?_⟩
      · rw [(ih _).1]
        exact (apply_single_pres acc.1 ok t p).1
      · rw [(ih _).2.1]
        exact (apply_single_pres acc.1 ok t p).2.1
      · rw [(ih _).2.2.1]
        exact (apply_single_pres acc.1 ok t p).2.2.1
      · rw [(ih _).2.2.2]
        exact (apply_single_pres acc.1 ok t p).2.2.2

theorem apply_fold_colored_other (ok : String → Bool) (t : String) :
    ∀ (paths : List String) (acc : Device × List LogCall) (k : String), k ≠ t →
    aget ((paths.foldl (fun acc p =>
        let r := Device.apply_color_to_single_image acc.1 ok t p
        (r.1, acc.2 ++ r.2)) acc).1).colored_image_paths k =
      aget acc.1.colored_image_paths k := by
  intro paths
  induction paths with
  | nil => intro acc k _; rfl
  | cons p ps ih =>
      intro acc k hk
      rw [List.foldl_cons, ih _ k hk]
      exact apply_single_colored_other acc.1 ok t p k hk

theorem apply_fold_colored_self (ok : String → Bool) (t dd : String) :
    ∀ (paths : List String) (acc : Device × List LogCall),
    paths ≠ [] →
    acc.1.deviceDir = some dd →
    (∀ p ∈ paths, ok p = true) →
    t ∈ akeys acc.1.colored_image_paths →
    ∃ plast, paths.getLast? = some plast ∧
      aget ((paths.foldl (fun acc p =>
          let r := Device.apply_color_to_single_image acc.1 ok t p
          (r.1, acc.2 ++ r.2)) acc).1).colored_image_paths t =
        some (some (coloredOutputPath dd plast)) := by
  intro paths
  induction paths with
  | nil => intro acc h; exact absurd rfl h
  | cons p ps ih =>
      intro acc _ hdd hok hmem
      rw [List.foldl_cons]
      cases ps with
      | nil =>
          refine ⟨p, rfl, ?_⟩
          show aget (Device.apply_color_to_single_image acc.1 ok t p).1.colored_image_paths t = _
          exact apply_single_colored_self acc.1 ok t p dd (hok p (List.mem_cons_self p []))
            hdd hmem
      | cons q qs =>
          have hps : (q :: qs : List String) ≠ [] := by simp
          have hdd1 : (Device.apply_color_to_single_image acc.1 ok t p).1.deviceDir = some dd := by
            rw [(apply_single_pres acc.1 ok t p).1]; exact hdd
          have hmem1 : t ∈ akeys (Device.apply_color_to_single_image acc.1 ok t p).1.colored_image_paths := by
            rw [(apply_single_pres acc.1 ok t p).2.2.2]; exact hmem
          have hok1 : ∀ r ∈ q :: qs, ok r = true := fun r hr => hok r (List.mem_cons_of_mem p hr)
          rcases ih ((Device.apply_color_to_single_image acc.1 ok t p).1,
              acc.2 ++ (Device.apply_color_to_single_image acc.1 ok t p).2) hps hdd1 hok1 hmem1 with
            ⟨plast, hpl, hres⟩
          exact ⟨plast, by rw [List.getLast?_cons_cons]; exact hpl, hres⟩

theorem aux_colored_other (ok : String → Bool) :
    ∀ (ps : List (String × String)) (d : Device) (k : String),
    k ∉ ps.map Prod.fst →
    aget ((Device.apply_color_images_aux ok d ps).1).colored_image_paths k =
      aget d.colored_image_paths k := by
  intro ps
  induction ps with
  | nil => intro d k _; rfl
  | cons tc rest ih =>
      intro d k hk
      rcases tc with ⟨t, c⟩
      rw [List.map_cons] at hk
      have hkt : k ≠ t := fun h => hk (h ▸ List.mem_cons_self t _)
      have hkr : k ∉ rest.map Prod.fst := fun h => hk (List.mem_cons_of_mem t h)
      cases hg : d.get_image_paths t with
      | val v =>
          by_cases htr : v.truthy = true
          · simp only [Device.apply_color_images_aux, hg, htr, if_true]
            rw [ih _ k hkr]
            exact apply_fold_colored_other ok t _ _ k hkt
          · simp only [Device.apply_color_images_aux, hg, htr, if_false, Bool.false_eq_true]
            exact ih d k hkr
      | dict m =>
          by_cases hme : m.isEmpty = true
          · simp only [Device.apply_color_images_aux, hg, hme, if_true]
            exact ih d k hkr
          · simp only [Device.apply_color_images_aux, hg, hme, if_false, Bool.false_eq_true]
            exact ih d k hkr

theorem aux_colored_self (ok : String → Bool) (dd : String) :
    ∀ (ps : List (String × String)) (d : Device) (t c : String) (l : List String),
    (ps.map Prod.fst).Nodup →
    (t, c) ∈ ps →
    t ≠ "" →
    d.deviceDir = some dd →
    aget d.image_paths t = some (PathVal.list l) →
    l ≠ [] →
    (∀ p ∈ l, ok p = true) →
    t ∈ akeys d.colored_image_paths →
    ∃ plast, l.getLast? = some plast ∧
      aget ((Device.apply_color_images_aux ok d ps).1).colored_image_paths t =
        some (some (coloredOutputPath dd plast)) := by
  intro ps
  induction ps with
  | nil => intro d t c l _ hmem; simp at hmem
  | cons tc rest ih =>
      intro d t c l hnd hmem ht0 hdd hl hne hok htc
      rcases tc with ⟨t', c'⟩
      rw [List.map_cons, List.nodup_cons] at hnd
      rcases List.mem_cons.mp hmem with hhead | htail
      · injection hhead with ht hc
        subst ht
        have hv : d.get_image_paths t = GetPathsResult.val (PathVal.list l) := by
          unfold Device.get_image_paths
          rw [if_pos ht0, hl]
          rfl
        have htr2 : (PathVal.list l).truthy = true := by
          simp [PathVal.truthy, hne]
        simp only [Device.apply_color_images_aux, hv, htr2, if_true]
        have hnotrest : t ∉ rest.map Prod.fst := hnd.1
        rw [aux_colored_other ok rest _ t hnotrest]
        rcases apply_fold_colored_self ok t dd l (d, []) hne hdd hok htc with ⟨plast, hpl, hres⟩
        exact ⟨plast, hpl, hres⟩
      · have htmem : t ∈ rest.map Prod.fst := by
          exact List.mem_map.mpr ⟨(t, c), htail, rfl⟩
        have htne : t ≠ t' := fun h => hnd.1 (h ▸ htmem)
        cases hg : d.get_image_paths t' with
        | val v =>
            by_cases htr : v.truthy = true
            · cases v with
              | null => simp [PathVal.truthy] at htr
              | str s =>
                  simp only [Device.apply_color_images_aux, hg, htr, if_true]
                  have hpres := apply_fold_pres ok t' [s] (d, ([] : List LogCall))
                  refine ih _ t c l hnd.2 htail ht0 ?_ ?_ hne hok ?_
                  · rw [hpres.1]; exact hdd
                  · rw [hpres.2.2.1]; exact hl
                  · rw [hpres.2.2.2]; exact htc
              | list l2 =>
                  simp only [Device.apply_color_images_aux, hg, htr, if_true]
                  have hpres := apply_fold_pres ok t' l2 (d, ([] : List LogCall))
                  refine ih _ t c l hnd.2 htail ht0 ?_ ?_ hne hok ?_
                  · rw [hpres.1]; exact hdd
                  · rw [hpres.2.2.1]; exact hl
                  · rw [hpres.2.2.2]; exact htc
            · simp only [Device.apply_color_images_aux, hg, htr, if_false, Bool.false_eq_true]
              exact ih d t c l hnd.2 htail ht0 hdd hl hne hok htc
        | dict m =>
            by_cases hme : m.isEmpty = true
            · simp only [Device.apply_color_images_aux, hg, hme, if_true]
              exact ih d t c l hnd.2 htail ht0 hdd hl hne hok htc
            · simp only [Device.apply_color_images_aux, hg, hme, if_false, Bool.false_eq_true]
              exact ih d t c l hnd.2 htail ht0 hdd hl hne hok htc

theorem zip_map_fst_sublist : ∀ (l1 : List String) (l2 : List String),
    List.Sublist ((l1.zip l2).map Prod.fst) l1 := by
  intro l1
  induction l1 with
  | nil => intro l2; simp
  | cons a l1 ih =>
      intro l2
      cases l2 with
      | nil => simp
      | cons b l2 =>
          rw [List.zip_cons_cons, List.map_cons]
          exact List.Sublist.cons₂ a (ih l2)

/-- C7: for a truthy-named (nonempty; the configured contract) type with a
(list-valued) raw slot of two or more images that all process
successfully, `apply_color_to_images` leaves `coloredPaths[type]` holding
exactly the single output path of the *last* raw image in list order — the
slot is overwritten on each successive colorization (its model type, one
optional path per type, matches the source's single-slot dict), never a
list or aggregate.  (A falsy empty type name instead makes
`get_image_paths` return the whole dict, whose processing fails without
touching the slot.) -/
theorem claim_C7 (d : Device) (typeColors : List String) (ok : String → Bool)
    (t dd : String) (i : Nat) (l : List String)
    (hnd : d.typeNames.Nodup)
    (hti : d.typeNames[i]? = some t)
    (ht0 : t ≠ "")
    (hic : i < typeColors.length)
    (hdd : d.deviceDir = some dd)
    (hl : aget d.image_paths t = some (PathVal.list l))
    (hlen : 2 ≤ l.length)
    (hok : ∀ p ∈ l, ok p = true)
    (htc : t ∈ akeys d.colored_image_paths) :
    ∃ plast, l.getLast? = some plast ∧
      aget ((d.apply_color_to_images typeColors ok).1).colored_image_paths t =
        some (some (coloredOutputPath dd plast)) := by
  have hi1 : i < d.typeNames.length := by
    rcases List.getElem?_eq_some_iff.mp hti with ⟨h, _⟩
    exact h
  have hgt : d.typeNames[i] = t := by
    rcases List.getElem?_eq_some_iff.mp hti with ⟨h, hv⟩
    exact hv
  have hiz : i < (d.typeNames.zip typeColors).length := by
    rw [List.length_zip]
    omega
  have hmemzip : (t, typeColors[i]) ∈ d.typeNames.zip typeColors := by
    have hval : (d.typeNames.zip typeColors)[i] = (d.typeNames[i], typeColors[i]) :=
      List.getElem_zip
    have hmem := List.getElem_mem hiz
    rw [hval, hgt] at hmem
    exact hmem
  have hzn : ((d.typeNames.zip typeColors).map Prod.fst).Nodup :=
    hnd.sublist (zip_map_fst_sublist d.typeNames typeColors)
  have hne : l ≠ [] := by
    intro h
    rw [h] at hlen
    simp at hlen
  exact aux_colored_self ok dd (d.typeNames.zip typeColors) d t _ l hzn hmemzip ht0 hdd hl hne
    hok htc

/-- Witness for C7 at the concrete device `devColor` (two raw images for
type `A`): the colored slot ends up holding the second image's output. -/
theorem claim_C7_witness :
    (devColor.typeNames.Nodup ∧ devColor.typeNames[0]? = some "A" ∧
     aget devColor.image_paths "A" = some (PathVal.list ["/r/p1.tif", "/r/p2.tif"])) ∧
    (∃ plast, (["/r/p1.tif", "/r/p2.tif"] : List String).getLast? = some plast ∧
      aget ((devColor.apply_color_to_images ["Red"] (fun _ => true)).1).colored_image_paths "A" =
        some (some (coloredOutputPath "/r" plast))) ∧
    aget ((devColor.apply_color_to_images ["Red"] (fun _ => true)).1).colored_image_paths "A" =
      some (some "/r/colored/p2_colored.tif") :=
  ⟨⟨by decide, by decide, by decide⟩,
   claim_C7 devColor ["Red"] (fun _ => true) "A" "/r" 0 ["/r/p1.tif", "/r/p2.tif"]
     (by decide) (by decide) (by decide) (by decide) (by decide) (by decide) (by decide)
     (by decide) (by decide),
   by decide⟩

/-! ### Claim C6: natural sort order -/

/-- C6: the per-directory candidate list produced by
`_get_sorted_image_files` is sorted under the natural-sort preorder — the
filename split into maximal digit/non-digit runs, digit runs compared as
integers, other runs lowercased (`natural_sort_key "imgA2.tif"` is the run
list `[imga, 2, .tif]`) — and on the spec's concrete input
`["imgA2.tif", "imgA10.tif", "imgA1.tif"]` the result is
`["imgA1.tif", "imgA2.tif", "imgA10.tif"]`. -/
theorem claim_C6 :
    (∀ (root : String) (files formats : List String),
      List.Sorted natSortRel (DeviceManager.get_sorted_image_files root files formats)) ∧
    natural_sort_key "imgA2.tif" = [NK.str "imga", NK.num 2, NK.str ".tif"] ∧
    DeviceManager.get_sorted_image_files "" ["imgA2.tif", "imgA10.tif", "imgA1.tif"]
        ["tif", "tiff"] =
      ["imgA1.tif", "imgA2.tif", "imgA10.tif"] := by
  refine ⟨?_, by decide, by decide⟩
  intro root files formats
  exact List.sorted_insertionSort natSortRel _

/-! ### Claim C5: grouping abort is all-or-nothing -/

/-- C5: when the scanned file count is not a multiple of the type count,
grouping logs the diagnostic and returns with zero devices, and the whole
run finishes with zero devices, no outputs, and no per-device stage log —
no confirmation, colorization, or merge executes for any device. -/
theorem claim_C5 (typeNames : List String) (numTypes : Nat) (verbose : Bool)
    (image_files : List String) (typeColors : List String) (opts : Options)
    (ok : String → Bool) (load : String → Option DImage)
    (confirmStage : Device → Except (String × Device) Device)
    (hT : 1 ≤ numTypes) (hN : image_files.length % numTypes ≠ 0) :
    DeviceManager.walk_directory_and_add_images typeNames numTypes verbose image_files =
      Except.ok ([],
        [("INFO", "Warning: The number of images is not a multiple of the number of types.")]) ∧
    DeviceManager.run_selected_processes typeNames numTypes typeColors verbose opts
        image_files ok load confirmStage =
      Except.ok ([],
        [("INFO", "Warning: The number of images is not a multiple of the number of types."),
         ("INFO", "Finished processing all devices.")], []) := by
  have h0 : ¬ numTypes = 0 := by omega
  constructor
  · simp [DeviceManager.walk_directory_and_add_images, h0, hN]
  · simp [DeviceManager.run_selected_processes, DeviceManager.walk_directory_and_add_images,
      h0, hN, DeviceManager.process_devices]

/-- Witness for C5 at three files and two types. -/
theorem claim_C5_witness :
    (1 ≤ 2 ∧ (["/r/a.tif", "/r/b.tif", "/r/c.tif"] : List String).length % 2 ≠ 0) ∧
    (DeviceManager.walk_directory_and_add_images ["A", "B"] 2 false
        ["/r/a.tif", "/r/b.tif", "/r/c.tif"] =
      Except.ok ([],
        [("INFO", "Warning: The number of images is not a multiple of the number of types.")]) ∧
    DeviceManager.run_selected_processes ["A", "B"] 2 ["Red", "Green"] false
        ⟨false, true, true⟩ ["/r/a.tif", "/r/b.tif", "/r/c.tif"] (fun _ => true) (fun _ => none)
        Except.ok =
      Except.ok ([],
        [("INFO", "Warning: The number of images is not a multiple of the number of types."),
         ("INFO", "Finished processing all devices.")], [])) :=
  ⟨⟨by decide, by decide⟩,
   claim_C5 ["A", "B"] 2 false ["/r/a.tif", "/r/b.tif", "/r/c.tif"] ["Red", "Green"]
     ⟨false, true, true⟩ (fun _ => true) (fun _ => none) Except.ok (by decide) (by decide)⟩

/-! ### Claim C4: positional grouping -/

theorem assign_types_spec (image_files : List String) (numTypes devIdx : Nat) :
    ∀ (ps : List (Nat × String)) (d : Device),
    (ps.map Prod.snd).Nodup →
    (∀ q ∈ ps, q.2 ≠ "" ∧ aget d.image_paths q.2 = some PathVal.null) →
    (∀ q ∈ ps, devIdx * numTypes + q.1 < image_files.length) →
    (∀ f ∈ image_files, f ≠ "") →
    ∃ d2 lg, DeviceManager.assign_types image_files numTypes devIdx d ps = Except.ok (d2, lg) ∧
      (∀ q ∈ ps, aget d2.image_paths q.2 =
        some (PathVal.list [image_files.getD (devIdx * numTypes + q.1) ""])) ∧
      (∀ t, t ∉ ps.map Prod.snd → aget d2.image_paths t = aget d.image_paths t) := by
  intro ps
  induction ps with
  | nil =>
      intro d _ _ _ _
      refine ⟨d, [], rfl, ?_, ?_⟩
      · intro q hq; simp at hq
      · intro t _; rfl
  | cons q rest ih =>
      intro d hnd hvals hidx hfs
      rcases q with ⟨ti, t⟩
      rw [List.map_cons, List.nodup_cons] at hnd
      have hq0 := hvals (ti, t) (List.mem_cons_self _ _)
      have htne : t ≠ "" := hq0.1
      have hnull : aget d.image_paths t = some PathVal.null := hq0.2
      have hin : devIdx * numTypes + ti < image_files.length :=
        hidx (ti, t) (List.mem_cons_self _ _)
      set f0 : String := image_files.getD (devIdx * numTypes + ti) "" with hf0
      have hfmem : f0 ∈ image_files := by
        rw [hf0, List.getD_eq_getElem image_files "" hin]
        exact List.getElem_mem hin
      have hfne : f0 ≠ "" := hfs _ hfmem
      have hset : d.set_image_paths (some t) (some f0) PathsArg.omitted =
          Except.ok ({ d with image_paths := aset d.image_paths t (PathVal.list [f0]) },
            [("INFO", "Set image path for " ++ t ++ ": " ++ (PathVal.list [f0]).render)]) := by
        simp [Device.set_image_paths, Device.set_image_paths_step, Device.set_image_paths_last,
          htne, hfne, Device.set_image_path, hnull, abspath, aget_aset_self]
      have hrest : ∀ q2 ∈ rest, q2.2 ≠ "" ∧
          aget (aset d.image_paths t (PathVal.list [f0])) q2.2 = some PathVal.null := by
        intro q2 hq2
        have h2 := hvals q2 (List.mem_cons_of_mem _ hq2)
        have hne2 : q2.2 ≠ t := by
          intro hh
          exact hnd.1 (hh ▸ List.mem_map.mpr ⟨q2, hq2, rfl⟩)
        exact ⟨h2.1, by rw [aget_aset_ne _ _ hne2]; exact h2.2⟩
      rcases ih ({ d with image_paths := aset d.image_paths t (PathVal.list [f0]) })
          hnd.2 hrest (fun q2 hq2 => hidx q2 (List.mem_cons_of_mem _ hq2)) hfs with
        ⟨d2, lg2, hrun, hpoint, hother⟩
      refine ⟨d2, [("INFO", "Set image path for " ++ t ++ ": " ++
          (PathVal.list [f0]).render)] ++ lg2, ?_, ?_, ?_⟩
      · rw [DeviceManager.assign_types, if_pos hin]
        rw [← hf0]
        simp only [hset, hrun]
      · intro q2 hq2
        rcases List.mem_cons.mp hq2 with hh | hh
        · rw [hh]
          rw [hother t hnd.1]
          exact aget_aset_self _ _ _
        · exact hpoint q2 hh
      · intro t2 ht2
        rw [List.map_cons] at ht2
        have ht2t : t2 ≠ t := fun hh => ht2 (hh ▸ List.mem_cons_self _ _)
        have ht2r : t2 ∉ rest.map Prod.snd := fun hh => ht2 (List.mem_cons_of_mem _ hh)
        rw [hother t2 ht2r]
        exact aget_aset_ne _ _ ht2t

theorem build_device_spec (typeNames : List String) (numTypes : Nat) (verbose : Bool)
    (image_files : List String) (devIdx : Nat)
    (hnd : typeNames.Nodup)
    (hts : ∀ t ∈ typeNames, t ≠ "")
    (hfs : ∀ f ∈ image_files, f ≠ "")
    (hidxs : ∀ ti, ti < typeNames.length → devIdx * numTypes + ti < image_files.length) :
    ∃ d lg, DeviceManager.build_device typeNames numTypes verbose image_files devIdx =
        Except.ok (d, lg) ∧
      d.name = some ("Device_" ++ toString (devIdx + 1)) ∧
      d.deviceDir = some (dirname (image_files.getD (devIdx * numTypes) "")) ∧
      ∀ ti, ti < typeNames.length →
        aget d.image_paths (typeNames.getD ti "") =
          some (PathVal.list [image_files.getD (devIdx * numTypes + ti) ""]) := by
  have henum_snd : typeNames.enum.map Prod.snd = typeNames := List.enum_map_snd typeNames
  have hnd2 : (typeNames.enum.map Prod.snd).Nodup := by rw [henum_snd]; exact hnd
  have hmem_snd : ∀ q ∈ typeNames.enum, q.2 ∈ typeNames := by
    intro q hq
    rw [← henum_snd]
    exact List.mem_map.mpr ⟨q, hq, rfl⟩
  have hfst_lt : ∀ q ∈ typeNames.enum, q.1 < typeNames.length := by
    intro q hq
    have := List.fst_lt_of_mem_enum hq
    exact this
  have hvals : ∀ q ∈ typeNames.enum, q.2 ≠ "" ∧
      aget (Device.init typeNames (some ("Device_" ++ toString (devIdx + 1)))
        (some (dirname (image_files.getD (devIdx * numTypes) ""))) verbose).image_paths q.2 =
        some PathVal.null := by
    intro q hq
    refine ⟨hts q.2 (hmem_snd q hq), ?_⟩
    show aget (initDict PathVal.null typeNames) q.2 = some PathVal.null
    rw [aget_initDict PathVal.null typeNames hnd]
    rw [if_pos (hmem_snd q hq)]
  have hidx2 : ∀ q ∈ typeNames.enum, devIdx * numTypes + q.1 < image_files.length :=
    fun q hq => hidxs q.1 (hfst_lt q hq)
  rcases assign_types_spec image_files numTypes devIdx typeNames.enum
      (Device.init typeNames (some ("Device_" ++ toString (devIdx + 1)))
        (some (dirname (image_files.getD (devIdx * numTypes) ""))) verbose)
      hnd2 hvals hidx2 hfs with ⟨d2, lg2, hrun, hpoint, _⟩
  have hmeta := assign_types_ok_meta image_files numTypes devIdx typeNames.enum _ d2 lg2 hrun
  refine ⟨d2, ("INFO", "Added device: " ++ ("Device_" ++ toString (devIdx + 1))) :: lg2, ?_, ?_, ?_, ?_⟩
  · rw [DeviceManager.build_device]
    simp only [hrun]
  · rw [hmeta.1]
    rfl
  · rw [hmeta.2.2.1]
    rfl
  · intro ti hti
    have hq : (ti, typeNames.getD ti "") ∈ typeNames.enum := by
      have hlen : ti < typeNames.enum.length := by
        rw [List.enum_length]
        exact hti
      have hval : typeNames.enum[ti] = (ti, typeNames[ti]) := List.getElem_enum _ _ hlen
      have hmem := List.getElem_mem hlen
      rw [hval] at hmem
      rw [List.getD_eq_getElem typeNames "" hti]
      exact hmem
    exact hpoint (ti, typeNames.getD ti "") hq

theorem build_devices_spec (typeNames : List String) (numTypes : Nat) (verbose : Bool)
    (image_files : List String)
    (hnd : typeNames.Nodup)
    (hts : ∀ t ∈ typeNames, t ≠ "")
    (hfs : ∀ f ∈ image_files, f ≠ "") :
    ∀ (ks : List Nat),
    (∀ k ∈ ks, ∀ ti, ti < typeNames.length → k * numTypes + ti < image_files.length) →
    ∃ ds lg, DeviceManager.build_devices typeNames numTypes verbose image_files ks =
        Except.ok (ds, lg) ∧
      ds.length = ks.length ∧
      ∀ j, j < ks.length → ∃ d, ds[j]? = some d ∧
        d.name = some ("Device_" ++ toString (ks.getD j 0 + 1)) ∧
        d.deviceDir = some (dirname (image_files.getD (ks.getD j 0 * numTypes) "")) ∧
        ∀ ti, ti < typeNames.length →
          aget d.image_paths (typeNames.getD ti "") =
            some (PathVal.list [image_files.getD (ks.getD j 0 * numTypes + ti) ""]) := by
  intro ks
  induction ks with
  | nil =>
      intro _
      refine ⟨[], [], rfl, rfl, ?_⟩
      intro j hj
      simp at hj
  | cons k ks ih =>
      intro hbd
      rcases build_device_spec typeNames numTypes verbose image_files k hnd hts hfs
          (hbd k (List.mem_cons_self k ks)) with ⟨d, lg, hdev, hname, hdir, hslots⟩
      rcases ih (fun k2 hk2 => hbd k2 (List.mem_cons_of_mem k hk2)) with
        ⟨ds1, lg1, hrun1, hlen1, hpt1⟩
      refine ⟨d :: ds1, lg ++ lg1, ?_, ?_, ?_⟩
      · rw [DeviceManager.build_devices]
        simp only [hdev, hrun1]
      · simp [hlen1]
      · intro j hj
        cases j with
        | zero => exact ⟨d, by simp, hname, hdir, hslots⟩
        | succ j2 =>
            have hj2 : j2 < ks.length := by simpa using hj
            rcases hpt1 j2 hj2 with ⟨d2, hget2, hname2, hdir2, hslots2⟩
            exact ⟨d2, by simpa using hget2, hname2, hdir2, hslots2⟩

/-- C4: with `N` scanned files, a configured type list of length `T ≥ 1` and
`T ∣ N`, grouping produces exactly `N / T` devices; device `k` (0-indexed)
is named `Device_{k+1}`, its directory is the directory component of its
first assigned file `image_files[k*T]`, and the file at flat index
`k*T + t` lands in the raw-path list of the type at position `t` of the
configured ordering — purely positional assignment. -/
theorem claim_C4 (typeNames : List String) (numTypes : Nat) (verbose : Bool)
    (image_files : List String)
    (hlen : typeNames.length = numTypes)
    (hT : 1 ≤ numTypes)
    (hmod : image_files.length % numTypes = 0)
    (hnd : typeNames.Nodup)
    (hts : ∀ t ∈ typeNames, t ≠ "")
    (hfs : ∀ f ∈ image_files, f ≠ "") :
    ∃ ds lg,
      DeviceManager.walk_directory_and_add_images typeNames numTypes verbose image_files =
        Except.ok (ds, lg) ∧
      ds.length = image_files.length / numTypes ∧
      ∀ k, k < image_files.length / numTypes → ∃ d, ds[k]? = some d ∧
        d.name = some ("Device_" ++ toString (k + 1)) ∧
        d.deviceDir = some (dirname (image_files.getD (k * numTypes) "")) ∧
        ∀ ti, ti < numTypes →
          aget d.image_paths (typeNames.getD ti "") =
            some (PathVal.list [image_files.getD (k * numTypes + ti) ""]) := by
  have h0 : ¬ numTypes = 0 := by omega
  have hdvd : numTypes ∣ image_files.length := Nat.dvd_of_mod_eq_zero hmod
  have hbound : ∀ k ∈ List.range (image_files.length / numTypes),
      ∀ ti, ti < typeNames.length → k * numTypes + ti < image_files.length := by
    intro k hk ti hti
    rw [List.mem_range] at hk
    have h1 : (k + 1) * numTypes ≤ (image_files.length / numTypes) * numTypes :=
      Nat.mul_le_mul_right numTypes hk
    have h2 : (image_files.length / numTypes) * numTypes = image_files.length :=
      Nat.div_mul_cancel hdvd
    have h3 : ti < numTypes := hlen ▸ hti
    have h4 : (k + 1) * numTypes = k * numTypes + numTypes := by ring
    omega
  rcases build_devices_spec typeNames numTypes verbose image_files hnd hts hfs
      (List.range (image_files.length / numTypes)) hbound with
    ⟨ds, lg, hrun, hlen2, hpt⟩
  refine ⟨ds, lg ++ [("INFO", "Assigned images to " ++
      toString (image_files.length / numTypes) ++ " devices.")], ?_, ?_, ?_⟩
  · rw [DeviceManager.walk_directory_and_add_images, if_neg h0,
      if_neg (fun hh => hh hmod)]
    simp only [hrun]
  · rw [hlen2, List.length_range]
  · intro k hk
    have hk2 : k < (List.range (image_files.length / numTypes)).length := by
      rw [List.length_range]
      exact hk
    rcases hpt k hk2 with ⟨d, hget, hname, hdir, hslots⟩
    have hgetD : (List.range (image_files.length / numTypes)).getD k 0 = k := by
      rw [List.getD_eq_getElem _ _ hk2, List.getElem_range]
    rw [hgetD] at hname hdir hslots
    refine ⟨d, hget, hname, hdir, ?_⟩
    intro ti hti
    exact hslots ti (by rw [hlen]; exact hti)

/-- Witness for C4 at four files and two types. -/
theorem claim_C4_witness :
    ((["A", "B"] : List String).length = 2 ∧ 1 ≤ 2 ∧
      (["/r/f1.tif", "/r/f2.tif", "/r/f3.tif", "/r/f4.tif"] : List String).length % 2 = 0 ∧
      (["A", "B"] : List String).Nodup) ∧
    (∃ ds lg,
      DeviceManager.walk_directory_and_add_images ["A", "B"] 2 false
          ["/r/f1.tif", "/r/f2.tif", "/r/f3.tif", "/r/f4.tif"] =
        Except.ok (ds, lg) ∧
      ds.length = (["/r/f1.tif", "/r/f2.tif", "/r/f3.tif", "/r/f4.tif"] : List String).length / 2 ∧
      ∀ k, k < (["/r/f1.tif", "/r/f2.tif", "/r/f3.tif", "/r/f4.tif"] : List String).length / 2 →
        ∃ d, ds[k]? = some d ∧
        d.name = some ("Device_" ++ toString (k + 1)) ∧
        d.deviceDir = some (dirname ((["/r/f1.tif", "/r/f2.tif", "/r/f3.tif",
          "/r/f4.tif"] : List String).getD (k * 2) "")) ∧
        ∀ ti, ti < 2 →
          aget d.image_paths ((["A", "B"] : List String).getD ti "") =
            some (PathVal.list [(["/r/f1.tif", "/r/f2.tif", "/r/f3.tif",
              "/r/f4.tif"] : List String).getD (k * 2 + ti) ""])) :=
  ⟨⟨by decide, by decide, by decide, by decide⟩,
   claim_C4 ["A", "B"] 2 false ["/r/f1.tif", "/r/f2.tif", "/r/f3.tif", "/r/f4.tif"]
     (by decide) (by decide) (by decide) (by decide) (by decide) (by decide)⟩
